import Mathlib

/-!
# v8-go object bridge: templates, registries, dispatch bridge, RegExp caches

A shallow embedding of `v8_object.go` and the properties of its template
registry, its accessor installation, its dispatch bridge and its RegExp
caches.

* Go pointers are indices into per-type heaps held in `State`; `nil` is `none`.
  Allocation appends to the heap of the type, so a new object sits at the
  heap's length.
* Go maps are association lists (`GoMap`) with Go's `m[k]`, `m[k] = v` and
  `delete(m, k)`; the order in which `range` visits a map is chosen by the
  runtime and is an explicit argument of the functions that iterate.
* Go's `int` is the 64-bit two's-complement integer (`wrapInt` gives the
  result of an addition), C's `int` the 32-bit one (`toCInt`). On a target
  with a 32-bit `int` the bounds 2^63 and 2^64 below read 2^31 and 2^32.
* The heaps of the embedding are unbounded. A Go map holds fewer than 2^63
  entries, its length being an `int`; where that matters it is the
  hypothesis `MapsFit`.
* Calls into the native engine and calls of host closures are recorded as a
  trace of `Event`s; what the native engine returns is an argument.
* A run-time panic (nil dereference, calling a nil func) is the result `none`.
* The mutexes are held for the whole body of a method, and the embedding is
  sequential: each method is one atomic step.
-/

namespace V8

/-! ## Machine integers -/

/-- Go `int` on 64-bit targets: the value of an arithmetic result after
two's-complement wrap-around. -/
def wrapInt (x : Int) : Int :=
  (x + 9223372036854775808) % 18446744073709551616 - 9223372036854775808

/-- Conversion `C.int(x)` of a Go `int`: truncation to 32 bits, two's complement. -/
def toCInt (x : Int) : Int :=
  (x + 2147483648) % 4294967296 - 2147483648

/-! ## Go maps -/

/-- A Go map: an association list, the binding of a key being its first entry. -/
abbrev GoMap (K V : Type) := List (K × V)

namespace GoMap

variable {K V : Type} [DecidableEq K]

/-- Map read `m[k]`. -/
def get (m : GoMap K V) (k : K) : Option V :=
  match m with
  | [] => none
  | (k', v) :: rest => if k' = k then some v else get rest k

/-- Builtin `delete(m, k)`. -/
def delete (m : GoMap K V) (k : K) : GoMap K V :=
  m.filter (fun kv => decide (kv.1 ≠ k))

/-- Map write `m[k] = v`: an upsert. -/
def set (m : GoMap K V) (k : K) (v : V) : GoMap K V :=
  (k, v) :: delete m k

/-- The keys bound in the map. -/
def keys (m : GoMap K V) : List K :=
  m.map Prod.fst

end GoMap

/-! ## Data model -/

/-- A Go pointer: an index into the heap of its type. -/
abbrev Ptr := Nat

/-- The identity of a host closure (a Go func value). -/
abbrev Closure := Nat

/-- A native handle (`unsafe.Pointer` into the engine). -/
abbrev Handle := Nat

/-- Address of a closure variable handed to the native engine:
`&ft.callback`, `&info.getter` or `&info.setter`. -/
inductive ClosurePtr where
  | funcCallback (ft : Ptr)
  | getter (info : Ptr)
  | setter (info : Ptr)
deriving DecidableEq, Repr

/-- Modelled from the spec: the `Value` type is declared outside
`v8_object.go`; a value handle is an opaque reference to a native engine
value, here the native pointer `self`. -/
structure Value where
  self : Handle
deriving DecidableEq, Repr

/-- Modelled from the spec: `newValue` is declared outside `v8_object.go`; it
wraps a native pointer into a value handle, a null pointer giving the
null/invalid result `nil`. -/
def newValue (self : Option Handle) : Option Value :=
  self.map Value.mk

/-- The source's `type Object struct { *Value }`. -/
structure Object where
  value : Value
deriving DecidableEq, Repr

/-- Modelled from the spec: `Value.ToObject` is declared outside
`v8_object.go`; narrowing is a reinterpretation of the same handle, not a
runtime check. -/
def Value.ToObject (v : Value) : Object :=
  ⟨v⟩

/-- The source's `type ReturnValue struct { self unsafe.Pointer }`. -/
structure ReturnValue where
  self : Option Handle
deriving DecidableEq, Repr

/-- The source's `FunctionCallbackInfo`. -/
structure FunctionCallbackInfo where
  self : Handle
  returnValue : ReturnValue
deriving DecidableEq, Repr

/-- The source's `GetterCallbackInfo`. -/
structure GetterCallbackInfo where
  self : Handle
  returnValue : ReturnValue
deriving DecidableEq, Repr

/-- The source's `SetterCallbackInfo`. -/
structure SetterCallbackInfo where
  self : Handle
deriving DecidableEq, Repr

/-- The source's `FunctionTemplate` (the embedded mutex is not a field here). -/
structure FunctionTemplate where
  id : Int
  engine : Option Ptr
  callback : Option Closure
deriving DecidableEq, Repr

/-- The source's `accessorInfo`. -/
structure accessorInfo where
  key : String
  getter : Option Closure
  setter : Option Closure
  attribs : Int
deriving DecidableEq, Repr

/-- The source's `ObjectTemplate`; `accessors` is `map[string]*accessorInfo`. -/
structure ObjectTemplate where
  id : Int
  engine : Option Ptr
  accessors : GoMap String Ptr
deriving DecidableEq, Repr

/-- Modelled from the spec: the `Engine` struct is declared outside
`v8_object.go`. It owns two registries, function templates and object
templates, each a mapping from an integer identifier to a registered
template, and the two identifier counters; `self` is its native handle. -/
structure Engine where
  self : Handle
  funcTemplateId : Int
  funcTemplates : GoMap Int Ptr
  objectTemplateId : Int
  objectTemplates : GoMap Int Ptr
deriving DecidableEq, Repr

/-- The Go heap: engines, function templates, object templates and accessor
records, each addressed by index. -/
structure State where
  engines : List Engine
  fts : List FunctionTemplate
  ots : List ObjectTemplate
  infos : List accessorInfo
deriving DecidableEq, Repr

/-- Calls that leave the Go side: native engine entry points and host closures. -/
inductive Event where
  | V8_NewObject (engine : Handle)
  | V8_NewFunction (engine : Handle) (callback : ClosurePtr)
  | V8_Object_SetAccessor (obj : Handle) (key : String) (keyLen : Int)
      (getter setter : ClosurePtr) (attribs : Int)
  | V8_RegExp_Pattern (self : Handle)
  | V8_RegExp_Flags (self : Handle)
  | C_free
  | callFunction (f : Closure) (info : FunctionCallbackInfo)
  | callGetter (f : Closure) (name : String) (info : GetterCallbackInfo)
  | callSetter (f : Closure) (name : String) (value : Option Value) (info : SetterCallbackInfo)
deriving DecidableEq, Repr

/-! ## Template registry -/

/-- Modelled from the spec: engine construction is outside `v8_object.go`. A
fresh engine has both identifier counters at zero and both registries
empty. -/
def Engine.fresh (self : Handle) : Engine :=
  { self := self, funcTemplateId := 0, funcTemplates := [],
    objectTemplateId := 0, objectTemplates := [] }

/-- A heap holding fresh engines only, one per native handle. -/
def State.init (selfs : List Handle) : State :=
  { engines := selfs.map Engine.fresh, fts := [], ots := [], infos := [] }

/-- `Engine.NewFunctionTemplate`: the new template sits at the next free
address of the function-template heap. -/
def Engine.NewFunctionTemplate (s : State) (e : Ptr) (callback : Option Closure) :
    Option (Ptr × State) :=
  match s.engines[e]? with
  | none => none
  | some eng =>
    let ft : FunctionTemplate :=
      { id := wrapInt (eng.funcTemplateId + 1), engine := some e, callback := callback }
    let p := s.fts.length
    let eng1 : Engine := { eng with funcTemplateId := wrapInt (eng.funcTemplateId + 1) }
    let eng2 : Engine := { eng1 with funcTemplates := eng1.funcTemplates.set ft.id p }
    some (p, { s with engines := s.engines.set e eng2, fts := s.fts ++ [ft] })

/-- `FunctionTemplate.Dispose`. -/
def FunctionTemplate.Dispose (s : State) (ft : Ptr) : Option State :=
  match s.fts[ft]? with
  | none => none
  | some t =>
    if t.id > 0 then
      match t.engine with
      | none => none
      | some e =>
        match s.engines[e]? with
        | none => none
        | some eng =>
          some { s with
            engines := s.engines.set e
              { eng with funcTemplates := eng.funcTemplates.delete t.id },
            fts := s.fts.set ft { t with id := 0, engine := none } }
    else
      some s

/-- `FunctionTemplate.NewFunction`. `native` is what `V8_NewFunction` returns,
should the call be made. The result is the value (`none` for `nil`) and the
trace of the call. -/
def FunctionTemplate.NewFunction (s : State) (ft : Ptr) (native : Option Handle) :
    Option (Option Value × List Event) :=
  match s.fts[ft]? with
  | none => none
  | some t =>
    match t.engine with
    | none => some (none, [])
    | some e =>
      match s.engines[e]? with
      | none => none
      | some eng =>
        some (newValue native, [Event.V8_NewFunction eng.self (ClosurePtr.funcCallback ft)])

/-- `Engine.NewObjectTemplate`. -/
def Engine.NewObjectTemplate (s : State) (e : Ptr) : Option (Ptr × State) :=
  match s.engines[e]? with
  | none => none
  | some eng =>
    let ot : ObjectTemplate :=
      { id := wrapInt (eng.objectTemplateId + 1), engine := some e, accessors := [] }
    let p := s.ots.length
    let eng1 : Engine := { eng with objectTemplateId := wrapInt (eng.objectTemplateId + 1) }
    let eng2 : Engine := { eng1 with objectTemplates := eng1.objectTemplates.set ot.id p }
    some (p, { s with engines := s.engines.set e eng2, ots := s.ots ++ [ot] })

/-- `ObjectTemplate.Dispose`. -/
def ObjectTemplate.Dispose (s : State) (ot : Ptr) : Option State :=
  match s.ots[ot]? with
  | none => none
  | some t =>
    if t.id > 0 then
      match t.engine with
      | none => none
      | some e =>
        match s.engines[e]? with
        | none => none
        | some eng =>
          some { s with
            engines := s.engines.set e
              { eng with objectTemplates := eng.objectTemplates.delete t.id },
            ots := s.ots.set ot { t with id := 0, engine := none } }
    else
      some s

/-- `ObjectTemplate.SetAccessor`: a new accessor record is allocated and bound
to the key. -/
def ObjectTemplate.SetAccessor (s : State) (ot : Ptr) (key : String)
    (getter setter : Option Closure) (attribs : Int) : Option State :=
  match s.ots[ot]? with
  | none => none
  | some t =>
    let a := s.infos.length
    some { s with
      infos := s.infos ++ [{ key := key, getter := getter, setter := setter, attribs := attribs }],
      ots := s.ots.set ot { t with accessors := t.accessors.set key a } }

/-- `Engine.NewObject`. `native` is what `V8_NewObject` returns. -/
def Engine.NewObject (s : State) (e : Ptr) (native : Option Handle) :
    Option (Option Value × List Event) :=
  match s.engines[e]? with
  | none => none
  | some eng => some (newValue native, [Event.V8_NewObject eng.self])

/-- `Object.setAccessor`. `status` is what `V8_Object_SetAccessor` returns. -/
def Object.setAccessor (s : State) (o : Object) (info : Ptr) (status : Int) :
    Option (Bool × List Event) :=
  match s.infos[info]? with
  | none => none
  | some i =>
    some (decide (status = 1),
      [Event.V8_Object_SetAccessor o.value.self i.key (toCInt i.key.utf8ByteSize)
        (ClosurePtr.getter info) (ClosurePtr.setter info) (toCInt i.attribs)])

/-- The loop `for _, info := range ot.accessors { object.setAccessor(info) }`
visiting the entries in the order `visit`; the status each call returns is
discarded by the loop. -/
def installAccessors (s : State) (o : Object) (status : Ptr → Int) :
    List (String × Ptr) → Option (List Event)
  | [] => some []
  | (_, info) :: rest =>
    match Object.setAccessor s o info (status info) with
    | none => none
    | some (_, t) =>
      match installAccessors s o status rest with
      | none => none
      | some ts => some (t ++ ts)

/-- `ObjectTemplate.NewObject`. `native` is what `V8_NewObject` returns,
`visit` the order in which `range` yields the entries of `ot.accessors`. -/
def ObjectTemplate.NewObject (s : State) (ot : Ptr) (native : Option Handle)
    (status : Ptr → Int) (visit : List (String × Ptr)) : Option (Option Value × List Event) :=
  match s.ots[ot]? with
  | none => none
  | some t =>
    match t.engine with
    | none => some (none, [])
    | some e =>
      match Engine.NewObject s e native with
      | none => none
      | some (none, tr) => some (none, tr)
      | some (some value, tr) =>
        match installAccessors s value.ToObject status visit with
        | none => none
        | some ts => some (some value, tr ++ ts)

/-- `ObjectTemplate.WrapObject`. `visit` is the order in which `range` yields
the entries of `ot.accessors`. -/
def ObjectTemplate.WrapObject (s : State) (ot : Ptr) (value : Value)
    (status : Ptr → Int) (visit : List (String × Ptr)) : Option (List Event) :=
  match s.ots[ot]? with
  | none => none
  | some _ => installAccessors s value.ToObject status visit

/-- A `visit` order is admissible for a map when it enumerates exactly the
entries of the map, each once. -/
def RangeOrder (m : GoMap String Ptr) (visit : List (String × Ptr)) : Prop :=
  visit.Perm m

/-! ## Dispatch bridge -/

/-- Reading the func variable a closure pointer points at. -/
def derefClosure (s : State) : ClosurePtr → Option (Option Closure)
  | ClosurePtr.funcCallback ft => (s.fts[ft]?).map (fun t => t.callback)
  | ClosurePtr.getter i => (s.infos[i]?).map (fun a => a.getter)
  | ClosurePtr.setter i => (s.infos[i]?).map (fun a => a.setter)

/-- `go_function_callback`. -/
def go_function_callback (s : State) (info : Handle) (callback : ClosurePtr) :
    Option (List Event) :=
  match derefClosure s callback with
  | some (some f) => some [Event.callFunction f { self := info, returnValue := ⟨none⟩ }]
  | _ => none

/-- `go_getter_callback`; `name` is the string of `length` bytes at `key`. -/
def go_getter_callback (s : State) (name : String) (info : Handle) (callback : ClosurePtr) :
    Option (List Event) :=
  match derefClosure s callback with
  | some (some f) => some [Event.callGetter f name { self := info, returnValue := ⟨none⟩ }]
  | _ => none

/-- `go_setter_callback`; `name` is the string of `length` bytes at `key`. -/
def go_setter_callback (s : State) (name : String) (value : Option Handle) (info : Handle)
    (callback : ClosurePtr) : Option (List Event) :=
  match derefClosure s callback with
  | some (some f) => some [Event.callSetter f name (newValue value) { self := info }]
  | _ => none

/-! ## Sequences of registry calls -/

/-- The calls that change the Go-side state. -/
inductive Op where
  | newFunctionTemplate (e : Ptr) (callback : Option Closure)
  | newObjectTemplate (e : Ptr)
  | disposeFunctionTemplate (ft : Ptr)
  | disposeObjectTemplate (ot : Ptr)
  | setAccessor (ot : Ptr) (key : String) (getter setter : Option Closure) (attribs : Int)
deriving DecidableEq, Repr

/-- One call. -/
def step (s : State) : Op → Option State
  | Op.newFunctionTemplate e cb => (Engine.NewFunctionTemplate s e cb).map Prod.snd
  | Op.newObjectTemplate e => (Engine.NewObjectTemplate s e).map Prod.snd
  | Op.disposeFunctionTemplate ft => FunctionTemplate.Dispose s ft
  | Op.disposeObjectTemplate ot => ObjectTemplate.Dispose s ot
  | Op.setAccessor ot key g st a => ObjectTemplate.SetAccessor s ot key g st a

/-- A sequence of calls, stopping at the first panic. -/
def run (s : State) : List Op → Option State
  | [] => some s
  | op :: ops =>
    match step s op with
    | none => none
    | some s1 => run s1 ops

/-- The id of the function template at address `p` (0 if there is none). -/
def funcIdAt (s : State) (p : Ptr) : Int :=
  match s.fts[p]? with
  | none => 0
  | some t => t.id

/-- The id of the object template at address `p` (0 if there is none). -/
def objectIdAt (s : State) (p : Ptr) : Int :=
  match s.ots[p]? with
  | none => 0
  | some t => t.id

/-- The ids of the templates returned by the `NewFunctionTemplate` calls on
engine `e` during a sequence of calls, in call order. -/
def issuedFuncIds (e : Ptr) (s : State) : List Op → List Int
  | [] => []
  | op :: ops =>
    match op with
    | Op.newFunctionTemplate e1 cb =>
      match Engine.NewFunctionTemplate s e1 cb with
      | none => []
      | some (p, s1) =>
        if e1 = e then funcIdAt s1 p :: issuedFuncIds e s1 ops else issuedFuncIds e s1 ops
    | _ =>
      match step s op with
      | none => []
      | some s1 => issuedFuncIds e s1 ops

/-- The ids of the templates returned by the `NewObjectTemplate` calls on
engine `e` during a sequence of calls, in call order. -/
def issuedObjectIds (e : Ptr) (s : State) : List Op → List Int
  | [] => []
  | op :: ops =>
    match op with
    | Op.newObjectTemplate e1 =>
      match Engine.NewObjectTemplate s e1 with
      | none => []
      | some (p, s1) =>
        if e1 = e then objectIdAt s1 p :: issuedObjectIds e s1 ops else issuedObjectIds e s1 ops
    | _ =>
      match step s op with
      | none => []
      | some s1 => issuedObjectIds e s1 ops

/-- Number of `NewFunctionTemplate` calls on engine `e` in a sequence. -/
def funcRegs (e : Ptr) (ops : List Op) : Nat :=
  ops.countP (fun op => match op with
    | Op.newFunctionTemplate e1 _ => decide (e1 = e)
    | _ => false)

/-- Number of `NewObjectTemplate` calls on engine `e` in a sequence. -/
def objectRegs (e : Ptr) (ops : List Op) : Nat :=
  ops.countP (fun op => match op with
    | Op.newObjectTemplate e1 => decide (e1 = e)
    | _ => false)

/-- The function-template counter of engine `e` (0 if there is no such engine). -/
def funcCounter (s : State) (e : Ptr) : Int :=
  match s.engines[e]? with
  | none => 0
  | some eng => eng.funcTemplateId

/-- The object-template counter of engine `e` (0 if there is no such engine). -/
def objectCounter (s : State) (e : Ptr) : Int :=
  match s.engines[e]? with
  | none => 0
  | some eng => eng.objectTemplateId

/-! ## The registry invariant -/

/-- The registry invariant of the data model. Every function template whose
id is nonzero has a non-nil engine back-reference to a live engine whose
function-template registry maps that id to exactly this template, and every
template stored in a function-template registry has a nonzero id equal to its
key; likewise for object templates and the object-template registries. -/
def RegistryInv (s : State) : Prop :=
  (∀ (p : Ptr) (t : FunctionTemplate), s.fts[p]? = some t → t.id ≠ 0 →
    ∃ e eng, t.engine = some e ∧ s.engines[e]? = some eng
      ∧ eng.funcTemplates.get t.id = some p)
  ∧ (∀ (e : Ptr) (eng : Engine) (k : Int) (p : Ptr), s.engines[e]? = some eng →
    eng.funcTemplates.get k = some p → ∃ t, s.fts[p]? = some t ∧ t.id = k ∧ k ≠ 0)
  ∧ (∀ (p : Ptr) (t : ObjectTemplate), s.ots[p]? = some t → t.id ≠ 0 →
    ∃ e eng, t.engine = some e ∧ s.engines[e]? = some eng
      ∧ eng.objectTemplates.get t.id = some p)
  ∧ (∀ (e : Ptr) (eng : Engine) (k : Int) (p : Ptr), s.engines[e]? = some eng →
    eng.objectTemplates.get k = some p → ∃ t, s.ots[p]? = some t ∧ t.id = k ∧ k ≠ 0)

/-- Id and engine back-reference of the function template at an address. -/
def funcTemplateView (s : State) (p : Ptr) : Option (Int × Option Ptr) :=
  (s.fts[p]?).map (fun t => (t.id, t.engine))

/-- Counter and registry of function templates of the engine at an address. -/
def funcEngineView (s : State) (e : Ptr) : Option (Int × GoMap Int Ptr) :=
  (s.engines[e]?).map (fun g => (g.funcTemplateId, g.funcTemplates))

/-- Id and engine back-reference of the object template at an address. -/
def objectTemplateView (s : State) (p : Ptr) : Option (Int × Option Ptr) :=
  (s.ots[p]?).map (fun t => (t.id, t.engine))

/-- Counter and registry of object templates of the engine at an address. -/
def objectEngineView (s : State) (e : Ptr) : Option (Int × GoMap Int Ptr) :=
  (s.engines[e]?).map (fun g => (g.objectTemplateId, g.objectTemplates))

/-- The invariant of one kind of registry, with the number `n e` of
registrations made so far on each engine `e`: `tv` gives id and engine
back-reference of each template, `ev` counter and registry of each engine.
Every template with a nonzero id is registered under it in its engine; each
counter is the wrapped number of registrations; each registry entry leads to
a template of that engine carrying the key as id, and the key is the wrapped
ordinal of some registration made so far. -/
def RegistrySide (n : Ptr → Nat) (tv : Ptr → Option (Int × Option Ptr))
    (ev : Ptr → Option (Int × GoMap Int Ptr)) : Prop :=
  (∀ (p : Ptr) (k : Int) (eo : Option Ptr), tv p = some (k, eo) → k ≠ 0 →
    ∃ e c reg, eo = some e ∧ ev e = some (c, reg) ∧ reg.get k = some p)
  ∧ (∀ (e : Ptr) (c : Int) (reg : GoMap Int Ptr), ev e = some (c, reg) →
    n e < 18446744073709551616 ∧ c = wrapInt (n e)
    ∧ ∀ (k : Int) (p : Ptr), reg.get k = some p →
      tv p = some (k, some e) ∧ ∃ j : Nat, 1 ≤ j ∧ j ≤ n e ∧ k = wrapInt (j : Int))

/-- The keys of the function-template registry of engine `e` (none if there
is no such engine). -/
def funcKeys (s : State) (e : Ptr) : List Int :=
  match s.engines[e]? with
  | none => []
  | some eng => eng.funcTemplates.keys

/-- The keys of the object-template registry of engine `e` (none if there is
no such engine). -/
def objectKeys (s : State) (e : Ptr) : List Int :=
  match s.engines[e]? with
  | none => []
  | some eng => eng.objectTemplates.keys

/-- Every registry of the heap holds fewer than 2^63 entries. The length of a
Go map is an `int`, so no Go map holds 2^63 entries or more. -/
def MapsFit (s : State) : Prop :=
  ∀ eng, eng ∈ s.engines →
    eng.funcTemplates.length < 9223372036854775808
    ∧ eng.objectTemplates.length < 9223372036854775808

/-! ## Accessor bookkeeping -/

/-- A sequence of `SetAccessor` calls on one template, each given by the
arguments of the call. -/
def setAccessors (s : State) (ot : Ptr) : List accessorInfo → Option State
  | [] => some s
  | c :: cs =>
    match ObjectTemplate.SetAccessor s ot c.key c.getter c.setter c.attribs with
    | none => none
    | some s1 => setAccessors s1 ot cs

/-- The last call of a sequence of `SetAccessor` calls that names `key`. -/
def lastCallFor (calls : List accessorInfo) (key : String) : Option accessorInfo :=
  calls.reverse.find? (fun c => decide (c.key = key))

/-- The property names of the `V8_Object_SetAccessor` calls of a trace, in
call order. -/
def installedKeys (t : List Event) : List String :=
  t.filterMap (fun ev => match ev with
    | Event.V8_Object_SetAccessor _ k _ _ _ _ => some k
    | _ => none)

/-- The object handles the `V8_Object_SetAccessor` calls of a trace act on. -/
def installTargets (t : List Event) : List Handle :=
  t.filterMap (fun ev => match ev with
    | Event.V8_Object_SetAccessor o _ _ _ _ _ => some o
    | _ => none)

/-- The accessor mapping of the template at `ot` reflects the `SetAccessor`
calls `done` made on it since it was created: its keys are distinct, each
entry points to the record of the last call naming its key, and every name
set so far is a key. -/
def AccessorsTrack (s : State) (ot e : Ptr) (done : List accessorInfo) : Prop :=
  ∃ t, s.ots[ot]? = some t ∧ t.engine = some e ∧ t.accessors.keys.Nodup
    ∧ (∀ k a, (k, a) ∈ t.accessors →
        ∃ c, s.infos[a]? = some c ∧ c.key = k ∧ lastCallFor done k = some c)
    ∧ (∀ c, c ∈ done → c.key ∈ t.accessors.keys)

/-! ## Example heaps -/

/-- One engine with one registered function template whose callback is closure 7. -/
def exFuncRegistered : State :=
  { engines := [{ self := 0, funcTemplateId := 1, funcTemplates := [(1, 0)],
                  objectTemplateId := 0, objectTemplates := [] }],
    fts := [{ id := 1, engine := some 0, callback := some 7 }],
    ots := [], infos := [] }

/-- The heap `exFuncRegistered` after the template has been disposed. -/
def exFuncDisposed : State :=
  { engines := [{ self := 0, funcTemplateId := 1, funcTemplates := [],
                  objectTemplateId := 0, objectTemplates := [] }],
    fts := [{ id := 0, engine := none, callback := some 7 }],
    ots := [], infos := [] }

/-- The heap reached from one fresh engine by registering two function
templates, disposing the first, registering an object template and giving it
the accessor "x": a disposed function template, an attached one with id 2 and
an attached object template with id 1. -/
def exAttached : State :=
  { engines := [{ self := 0, funcTemplateId := 2, funcTemplates := [(2, 1)],
                  objectTemplateId := 1, objectTemplates := [(1, 0)] }],
    fts := [{ id := 0, engine := none, callback := some 7 },
            { id := 2, engine := some 0, callback := none }],
    ots := [{ id := 1, engine := some 0, accessors := [("x", 0)] }],
    infos := [{ key := "x", getter := some 1, setter := some 2, attribs := 0 }] }

/-- One engine with one registered function template whose callback is nil. -/
def exNilCallback : State :=
  { engines := [{ self := 0, funcTemplateId := 1, funcTemplates := [(1, 0)],
                  objectTemplateId := 0, objectTemplates := [] }],
    fts := [{ id := 1, engine := some 0, callback := none }],
    ots := [], infos := [] }

/-- The heap `exNilCallback` after the template has been disposed. -/
def exNilCallbackDisposed : State :=
  { engines := [{ self := 0, funcTemplateId := 1, funcTemplates := [],
                  objectTemplateId := 0, objectTemplates := [] }],
    fts := [{ id := 0, engine := none, callback := none }],
    ots := [], infos := [] }

/-- One engine with one registered object template without accessors. -/
def exObjRegistered : State :=
  { engines := [{ self := 0, funcTemplateId := 0, funcTemplates := [],
                  objectTemplateId := 1, objectTemplates := [(1, 0)] }],
    fts := [],
    ots := [{ id := 1, engine := some 0, accessors := [] }], infos := [] }

/-- The heap `exObjRegistered` after `SetAccessor("x", 1, 2, PA_None)`. -/
def exObjWithAccessor : State :=
  { engines := [{ self := 0, funcTemplateId := 0, funcTemplates := [],
                  objectTemplateId := 1, objectTemplates := [(1, 0)] }],
    fts := [],
    ots := [{ id := 1, engine := some 0, accessors := [("x", 0)] }],
    infos := [{ key := "x", getter := some 1, setter := some 2, attribs := 0 }] }

/-- The heap `exObjWithAccessor` after the template has been disposed. -/
def exObjDisposed : State :=
  { engines := [{ self := 0, funcTemplateId := 0, funcTemplates := [],
                  objectTemplateId := 1, objectTemplates := [] }],
    fts := [],
    ots := [{ id := 0, engine := none, accessors := [("x", 0)] }],
    infos := [{ key := "x", getter := some 1, setter := some 2, attribs := 0 }] }

/-! ## RegExp views -/

/-- The source's `RegExp`; `self` is the handle of the embedded `*Object`. -/
structure RegExp where
  self : Handle
  pattern : String
  patternCached : Bool
  flags : Int
  flagsCached : Bool
deriving DecidableEq, Repr

/-- `RegExp.Pattern`. `native` is the Go string made from what
`V8_RegExp_Pattern` returns, should the call be made. -/
def RegExp.Pattern (r : RegExp) (native : String) : String × RegExp × List Event :=
  if !r.patternCached then
    (native, { r with pattern := native, patternCached := true },
      [Event.V8_RegExp_Pattern r.self, Event.C_free])
  else
    (r.pattern, r, [])

/-- `RegExp.Flags`. `native` is what `V8_RegExp_Flags` returns, should the
call be made. -/
def RegExp.Flags (r : RegExp) (native : Int) : Int × RegExp × List Event :=
  if !r.flagsCached then
    (native, { r with flags := native, flagsCached := true }, [Event.V8_RegExp_Flags r.self])
  else
    (r.flags, r, [])

/-- Consecutive calls of `Pattern()`, one per element of `natives` (the answer
the engine would give to that call): the values returned, the final view and
the trace of each call. -/
def RegExp.PatternCalls (r : RegExp) : List String → List String × RegExp × List (List Event)
  | [] => ([], r, [])
  | x :: xs =>
    let (v, r1, t) := r.Pattern x
    let (vs, r2, ts) := RegExp.PatternCalls r1 xs
    (v :: vs, r2, t :: ts)

/-- Consecutive calls of `Flags()`, one per element of `natives`. -/
def RegExp.FlagsCalls (r : RegExp) : List Int → List Int × RegExp × List (List Event)
  | [] => ([], r, [])
  | x :: xs =>
    let (v, r1, t) := r.Flags x
    let (vs, r2, ts) := RegExp.FlagsCalls r1 xs
    (v :: vs, r2, t :: ts)

/-- Number of `V8_RegExp_Pattern` calls in a trace. -/
def patternCallCount (t : List Event) : Nat :=
  t.countP (fun ev => match ev with | Event.V8_RegExp_Pattern _ => true | _ => false)

/-- Number of `V8_RegExp_Flags` calls in a trace. -/
def flagsCallCount (t : List Event) : Nat :=
  t.countP (fun ev => match ev with | Event.V8_RegExp_Flags _ => true | _ => false)

/-! # Theorems -/

/-! ## Go maps -/

namespace GoMap

variable {K V : Type} [DecidableEq K]

theorem get_delete_self (m : GoMap K V) (k : K) : (m.delete k).get k = none := by
  induction m with
  | nil => rfl
  | cons kv rest ih =>
    obtain ⟨k1, v1⟩ := kv
    by_cases h : k1 = k
    · simpa [delete, List.filter_cons, h] using ih
    · simpa [delete, List.filter_cons, h, get] using ih

theorem get_delete_ne (m : GoMap K V) {k k2 : K} (h : k2 ≠ k) :
    (m.delete k).get k2 = m.get k2 := by
  induction m with
  | nil => rfl
  | cons kv rest ih =>
    obtain ⟨k1, v1⟩ := kv
    by_cases h1 : k1 = k
    · have h2 : ¬ k1 = k2 := fun e => h (e ▸ h1)
      have hd : delete ((k1, v1) :: rest) k = delete rest k := by
        simp [delete, List.filter_cons, h1]
      rw [hd, ih]
      simp [get, h2]
    · have hd : delete ((k1, v1) :: rest) k = (k1, v1) :: delete rest k := by
        simp [delete, List.filter_cons, h1]
      rw [hd]
      by_cases h2 : k1 = k2
      · simp [get, h2]
      · simp [get, h2, ih]

theorem get_set_self (m : GoMap K V) (k : K) (v : V) : (m.set k v).get k = some v := by
  simp [set, get]

theorem get_set_ne (m : GoMap K V) {k k2 : K} (v : V) (h : k2 ≠ k) :
    (m.set k v).get k2 = m.get k2 := by
  have h2 : ¬ k = k2 := fun e => h e.symm
  simp [set, get, h2, get_delete_ne m h]

end GoMap

theorem GoMap_mem_delete {K V : Type} [DecidableEq K] (m : GoMap K V) (k k2 : K) (v : V) :
    (k2, v) ∈ m.delete k ↔ (k2, v) ∈ m ∧ k2 ≠ k := by
  simp [GoMap.delete, List.mem_filter]

theorem GoMap_keys_delete_nodup {K V : Type} [DecidableEq K] (m : GoMap K V) (k : K)
    (h : m.keys.Nodup) : (m.delete k).keys.Nodup := by
  unfold GoMap.keys GoMap.delete
  exact h.sublist (List.Sublist.map _ (List.filter_sublist _))

theorem GoMap_not_mem_keys_delete {K V : Type} [DecidableEq K] (m : GoMap K V) (k : K) :
    k ∉ (m.delete k).keys := by
  intro h
  simp only [GoMap.keys, List.mem_map] at h
  obtain ⟨⟨k2, v⟩, hmem, hk⟩ := h
  simp only at hk
  subst hk
  exact ((GoMap_mem_delete m k2 k2 v).mp hmem).2 rfl

theorem GoMap_mem_keys_delete {K V : Type} [DecidableEq K] (m : GoMap K V) (k k2 : K)
    (h : k2 ∈ m.keys) (hne : k2 ≠ k) : k2 ∈ (m.delete k).keys := by
  simp only [GoMap.keys, List.mem_map] at h ⊢
  obtain ⟨⟨k3, v⟩, hmem, hk⟩ := h
  simp only at hk
  subst hk
  exact ⟨(k3, v), (GoMap_mem_delete m k k3 v).mpr ⟨hmem, hne⟩, rfl⟩

theorem GoMap_mem_keys_set {K V : Type} [DecidableEq K] (m : GoMap K V) (k k2 : K) (v : V)
    (h : k2 ∈ m.keys) : k2 ∈ (m.set k v).keys := by
  show k2 ∈ GoMap.keys ((k, v) :: m.delete k)
  simp only [GoMap.keys, List.map_cons, List.mem_cons]
  by_cases hk : k2 = k
  · exact Or.inl hk
  · exact Or.inr (GoMap_mem_keys_delete m k k2 h hk)

theorem GoMap_mem_keys_set_self {K V : Type} [DecidableEq K] (m : GoMap K V) (k : K) (v : V) :
    k ∈ (m.set k v).keys := by
  show k ∈ GoMap.keys ((k, v) :: m.delete k)
  simp [GoMap.keys]

/-! ## Dispose -/

theorem FunctionTemplate_Dispose_again (s : State) (ft : Ptr) (s1 : State)
    (h : FunctionTemplate.Dispose s ft = some s1) :
    FunctionTemplate.Dispose s1 ft = some s1 := by
  unfold FunctionTemplate.Dispose at h
  cases ht : s.fts[ft]? with
  | none => simp [ht] at h
  | some t =>
    simp only [ht] at h
    by_cases hid : t.id > 0
    · simp only [hid, if_true] at h
      cases he : t.engine with
      | none => simp [he] at h
      | some e =>
        simp only [he] at h
        cases heng : s.engines[e]? with
        | none => simp [heng] at h
        | some eng =>
          simp only [heng, Option.some.injEq] at h
          have hlt : ft < s.fts.length := (List.getElem?_eq_some.mp ht).1
          subst h
          simp [FunctionTemplate.Dispose, List.getElem?_set_self hlt]
    · simp only [hid, if_false, Option.some.injEq] at h
      subst h
      simp [FunctionTemplate.Dispose, ht, hid]

theorem ObjectTemplate_Dispose_again (s : State) (ot : Ptr) (s1 : State)
    (h : ObjectTemplate.Dispose s ot = some s1) :
    ObjectTemplate.Dispose s1 ot = some s1 := by
  unfold ObjectTemplate.Dispose at h
  cases ht : s.ots[ot]? with
  | none => simp [ht] at h
  | some t =>
    simp only [ht] at h
    by_cases hid : t.id > 0
    · simp only [hid, if_true] at h
      cases he : t.engine with
      | none => simp [he] at h
      | some e =>
        simp only [he] at h
        cases heng : s.engines[e]? with
        | none => simp [heng] at h
        | some eng =>
          simp only [heng, Option.some.injEq] at h
          have hlt : ot < s.ots.length := (List.getElem?_eq_some.mp ht).1
          subst h
          simp [ObjectTemplate.Dispose, List.getElem?_set_self hlt]
    · simp only [hid, if_false, Option.some.injEq] at h
      subst h
      simp [ObjectTemplate.Dispose, ht, hid]

theorem FunctionTemplate_Dispose_eq_of_attached (s : State) (ft : Ptr) (t : FunctionTemplate)
    (e : Ptr) (eng : Engine) (ht : s.fts[ft]? = some t) (hid : 0 < t.id)
    (he : t.engine = some e) (heng : s.engines[e]? = some eng) :
    FunctionTemplate.Dispose s ft = some { s with
      engines := s.engines.set e { eng with funcTemplates := eng.funcTemplates.delete t.id },
      fts := s.fts.set ft { t with id := 0, engine := none } } := by
  have hid1 : t.id > 0 := hid
  simp [FunctionTemplate.Dispose, ht, hid1, he, heng]

theorem ObjectTemplate_Dispose_eq_of_attached (s : State) (ot : Ptr) (t : ObjectTemplate)
    (e : Ptr) (eng : Engine) (ht : s.ots[ot]? = some t) (hid : 0 < t.id)
    (he : t.engine = some e) (heng : s.engines[e]? = some eng) :
    ObjectTemplate.Dispose s ot = some { s with
      engines := s.engines.set e { eng with objectTemplates := eng.objectTemplates.delete t.id },
      ots := s.ots.set ot { t with id := 0, engine := none } } := by
  have hid1 : t.id > 0 := hid
  simp [ObjectTemplate.Dispose, ht, hid1, he, heng]

theorem FunctionTemplate_Dispose_of_not_pos (s : State) (ft : Ptr) (t : FunctionTemplate)
    (ht : s.fts[ft]? = some t) (hid : ¬ 0 < t.id) :
    FunctionTemplate.Dispose s ft = some s := by
  have hid1 : ¬ t.id > 0 := hid
  simp [FunctionTemplate.Dispose, ht, hid1]

theorem ObjectTemplate_Dispose_of_not_pos (s : State) (ot : Ptr) (t : ObjectTemplate)
    (ht : s.ots[ot]? = some t) (hid : ¬ 0 < t.id) :
    ObjectTemplate.Dispose s ot = some s := by
  have hid1 : ¬ t.id > 0 := hid
  simp [ObjectTemplate.Dispose, ht, hid1]

/-- C1: for every function template and every object template, in every heap
(attached, already disposed, or never attached), calling Dispose twice in a
row gives exactly the state that calling it once gives: the second call
returns the state it was given, template fields and registries included.
Dispose does return whenever the template is live and, if its id is
positive, its engine back-reference points to a live engine. -/
theorem C1_dispose_twice_eq_once :
    (∀ (s : State) (ft : Ptr),
      (FunctionTemplate.Dispose s ft).bind (fun s1 => FunctionTemplate.Dispose s1 ft)
        = FunctionTemplate.Dispose s ft)
    ∧ (∀ (s : State) (ot : Ptr),
      (ObjectTemplate.Dispose s ot).bind (fun s1 => ObjectTemplate.Dispose s1 ot)
        = ObjectTemplate.Dispose s ot)
    ∧ (∀ (s s1 : State) (ft : Ptr), FunctionTemplate.Dispose s ft = some s1 →
        FunctionTemplate.Dispose s1 ft = some s1)
    ∧ (∀ (s s1 : State) (ot : Ptr), ObjectTemplate.Dispose s ot = some s1 →
        ObjectTemplate.Dispose s1 ot = some s1)
    ∧ (∀ (s : State) (ft : Ptr) (t : FunctionTemplate), s.fts[ft]? = some t →
        (0 < t.id → ∃ e eng, t.engine = some e ∧ s.engines[e]? = some eng) →
        ∃ s1, FunctionTemplate.Dispose s ft = some s1)
    ∧ (∀ (s : State) (ot : Ptr) (t : ObjectTemplate), s.ots[ot]? = some t →
        (0 < t.id → ∃ e eng, t.engine = some e ∧ s.engines[e]? = some eng) →
        ∃ s1, ObjectTemplate.Dispose s ot = some s1) := by
  refine ⟨?_, ?_, ?_, ?_, ?_, ?_⟩
  · intro s ft
    cases h : FunctionTemplate.Dispose s ft with
    | none => rfl
    | some s1 => simpa using FunctionTemplate_Dispose_again s ft s1 h
  · intro s ot
    cases h : ObjectTemplate.Dispose s ot with
    | none => rfl
    | some s1 => simpa using ObjectTemplate_Dispose_again s ot s1 h
  · intro s s1 ft h
    exact FunctionTemplate_Dispose_again s ft s1 h
  · intro s s1 ot h
    exact ObjectTemplate_Dispose_again s ot s1 h
  · intro s ft t ht hwf
    by_cases hid : 0 < t.id
    · obtain ⟨e, eng, he, heng⟩ := hwf hid
      exact ⟨_, FunctionTemplate_Dispose_eq_of_attached s ft t e eng ht hid he heng⟩
    · exact ⟨s, FunctionTemplate_Dispose_of_not_pos s ft t ht hid⟩
  · intro s ot t ht hwf
    by_cases hid : 0 < t.id
    · obtain ⟨e, eng, he, heng⟩ := hwf hid
      exact ⟨_, ObjectTemplate_Dispose_eq_of_attached s ot t e eng ht hid he heng⟩
    · exact ⟨s, ObjectTemplate_Dispose_of_not_pos s ot t ht hid⟩

/-! ## Instantiating a disposed template -/

/-- C2: for every template whose engine back-reference is nil,
`FunctionTemplate.NewFunction` and `ObjectTemplate.NewObject` return nil with
an empty trace: no native engine call and no closure call is made, whatever
the engine heap holds (so nothing is read through the back-reference) and
whatever accessors the template holds. Dispose of a template with a positive
id leaves the template in that condition. -/
theorem C2_disposed_template_yields_nil :
    (∀ (s : State) (ft : Ptr) (t : FunctionTemplate) (native : Option Handle),
      s.fts[ft]? = some t → t.engine = none →
      FunctionTemplate.NewFunction s ft native = some (none, []))
    ∧ (∀ (s : State) (ot : Ptr) (t : ObjectTemplate) (native : Option Handle)
        (status : Ptr → Int) (visit : List (String × Ptr)),
      s.ots[ot]? = some t → t.engine = none →
      ObjectTemplate.NewObject s ot native status visit = some (none, []))
    ∧ (∀ (s s1 : State) (ft : Ptr) (t : FunctionTemplate) (native : Option Handle),
      s.fts[ft]? = some t → 0 < t.id → FunctionTemplate.Dispose s ft = some s1 →
      FunctionTemplate.NewFunction s1 ft native = some (none, []))
    ∧ (∀ (s s1 : State) (ot : Ptr) (t : ObjectTemplate) (native : Option Handle)
        (status : Ptr → Int) (visit : List (String × Ptr)),
      s.ots[ot]? = some t → 0 < t.id → ObjectTemplate.Dispose s ot = some s1 →
      ObjectTemplate.NewObject s1 ot native status visit = some (none, [])) := by
  have hF : ∀ (s : State) (ft : Ptr) (t : FunctionTemplate) (native : Option Handle),
      s.fts[ft]? = some t → t.engine = none →
      FunctionTemplate.NewFunction s ft native = some (none, []) := by
    intro s ft t native ht he
    simp [FunctionTemplate.NewFunction, ht, he]
  have hO : ∀ (s : State) (ot : Ptr) (t : ObjectTemplate) (native : Option Handle)
      (status : Ptr → Int) (visit : List (String × Ptr)),
      s.ots[ot]? = some t → t.engine = none →
      ObjectTemplate.NewObject s ot native status visit = some (none, []) := by
    intro s ot t native status visit ht he
    simp [ObjectTemplate.NewObject, ht, he]
  refine ⟨hF, hO, ?_, ?_⟩
  · intro s s1 ft t native ht hid hd
    have hlt : ft < s.fts.length := (List.getElem?_eq_some.mp ht).1
    cases he : t.engine with
    | none => simp [FunctionTemplate.Dispose, ht, gt_iff_lt, hid, he] at hd
    | some e =>
      cases heng : s.engines[e]? with
      | none => simp [FunctionTemplate.Dispose, ht, gt_iff_lt, hid, he, heng] at hd
      | some eng =>
        rw [FunctionTemplate_Dispose_eq_of_attached s ft t e eng ht hid he heng] at hd
        simp only [Option.some.injEq] at hd
        subst hd
        exact hF _ ft { t with id := 0, engine := none } native
          (by simp [List.getElem?_set_self hlt]) rfl
  · intro s s1 ot t native status visit ht hid hd
    have hlt : ot < s.ots.length := (List.getElem?_eq_some.mp ht).1
    cases he : t.engine with
    | none => simp [ObjectTemplate.Dispose, ht, gt_iff_lt, hid, he] at hd
    | some e =>
      cases heng : s.engines[e]? with
      | none => simp [ObjectTemplate.Dispose, ht, gt_iff_lt, hid, he, heng] at hd
      | some eng =>
        rw [ObjectTemplate_Dispose_eq_of_attached s ot t e eng ht hid he heng] at hd
        simp only [Option.some.injEq] at hd
        subst hd
        exact hO _ ot { t with id := 0, engine := none } native status visit
          (by simp [List.getElem?_set_self hlt]) rfl

/-! ## Engine heap updates -/

theorem engines_set_get (l : List Engine) (e e2 : Ptr) (g eng : Engine)
    (h : l[e]? = some eng) :
    (l.set e g)[e2]? = if e = e2 then some g else l[e2]? := by
  have hlt : e < l.length := (List.getElem?_eq_some.mp h).1
  rw [List.getElem?_set]
  by_cases h2 : e = e2
  · subst h2
    simp [hlt]
  · simp [h2]

/-! ## Identifier allocation -/

theorem wrapInt_succ_wrapInt (x : Int) : wrapInt (wrapInt x + 1) = wrapInt (x + 1) := by
  unfold wrapInt
  omega

theorem Engine.NewFunctionTemplate_eq (s : State) (e : Ptr) (cb : Option Closure)
    (eng : Engine) (h : s.engines[e]? = some eng) :
    Engine.NewFunctionTemplate s e cb = some (s.fts.length, { s with
      engines := s.engines.set e { eng with
        funcTemplateId := wrapInt (eng.funcTemplateId + 1),
        funcTemplates := eng.funcTemplates.set (wrapInt (eng.funcTemplateId + 1)) s.fts.length },
      fts := s.fts ++ [{ id := wrapInt (eng.funcTemplateId + 1), engine := some e,
                         callback := cb }] }) := by
  simp [Engine.NewFunctionTemplate, h]

theorem Engine.NewObjectTemplate_eq (s : State) (e : Ptr)
    (eng : Engine) (h : s.engines[e]? = some eng) :
    Engine.NewObjectTemplate s e = some (s.ots.length, { s with
      engines := s.engines.set e { eng with
        objectTemplateId := wrapInt (eng.objectTemplateId + 1),
        objectTemplates :=
          eng.objectTemplates.set (wrapInt (eng.objectTemplateId + 1)) s.ots.length },
      ots := s.ots ++ [{ id := wrapInt (eng.objectTemplateId + 1), engine := some e,
                         accessors := [] }] }) := by
  simp [Engine.NewObjectTemplate, h]

theorem Engine.NewFunctionTemplate_none (s : State) (e : Ptr) (cb : Option Closure)
    (h : s.engines[e]? = none) : Engine.NewFunctionTemplate s e cb = none := by
  simp [Engine.NewFunctionTemplate, h]

theorem Engine.NewObjectTemplate_none (s : State) (e : Ptr)
    (h : s.engines[e]? = none) : Engine.NewObjectTemplate s e = none := by
  simp [Engine.NewObjectTemplate, h]

theorem FunctionTemplate_Dispose_cases (s s1 : State) (ft : Ptr)
    (h : FunctionTemplate.Dispose s ft = some s1) :
    s1 = s ∨ ∃ t e eng, s.fts[ft]? = some t ∧ 0 < t.id ∧ t.engine = some e
      ∧ s.engines[e]? = some eng
      ∧ s1 = { s with
          engines := s.engines.set e { eng with funcTemplates := eng.funcTemplates.delete t.id },
          fts := s.fts.set ft { t with id := 0, engine := none } } := by
  cases ht : s.fts[ft]? with
  | none => simp [FunctionTemplate.Dispose, ht] at h
  | some t =>
    by_cases hid : 0 < t.id
    · cases he : t.engine with
      | none => simp [FunctionTemplate.Dispose, ht, gt_iff_lt, hid, he] at h
      | some e =>
        cases heng : s.engines[e]? with
        | none => simp [FunctionTemplate.Dispose, ht, gt_iff_lt, hid, he, heng] at h
        | some eng =>
          rw [FunctionTemplate_Dispose_eq_of_attached s ft t e eng ht hid he heng] at h
          exact Or.inr ⟨t, e, eng, rfl, hid, he, heng, (Option.some.inj h).symm⟩
    · rw [FunctionTemplate_Dispose_of_not_pos s ft t ht hid] at h
      exact Or.inl (Option.some.inj h).symm

theorem ObjectTemplate_Dispose_cases (s s1 : State) (ot : Ptr)
    (h : ObjectTemplate.Dispose s ot = some s1) :
    s1 = s ∨ ∃ t e eng, s.ots[ot]? = some t ∧ 0 < t.id ∧ t.engine = some e
      ∧ s.engines[e]? = some eng
      ∧ s1 = { s with
          engines := s.engines.set e
            { eng with objectTemplates := eng.objectTemplates.delete t.id },
          ots := s.ots.set ot { t with id := 0, engine := none } } := by
  cases ht : s.ots[ot]? with
  | none => simp [ObjectTemplate.Dispose, ht] at h
  | some t =>
    by_cases hid : 0 < t.id
    · cases he : t.engine with
      | none => simp [ObjectTemplate.Dispose, ht, gt_iff_lt, hid, he] at h
      | some e =>
        cases heng : s.engines[e]? with
        | none => simp [ObjectTemplate.Dispose, ht, gt_iff_lt, hid, he, heng] at h
        | some eng =>
          rw [ObjectTemplate_Dispose_eq_of_attached s ot t e eng ht hid he heng] at h
          exact Or.inr ⟨t, e, eng, rfl, hid, he, heng, (Option.some.inj h).symm⟩
    · rw [ObjectTemplate_Dispose_of_not_pos s ot t ht hid] at h
      exact Or.inl (Option.some.inj h).symm

theorem ObjectTemplate.SetAccessor_cases (s s1 : State) (ot : Ptr) (key : String)
    (g st : Option Closure) (a : Int)
    (h : ObjectTemplate.SetAccessor s ot key g st a = some s1) :
    ∃ t, s.ots[ot]? = some t ∧ s1 = { s with
      infos := s.infos ++ [{ key := key, getter := g, setter := st, attribs := a }],
      ots := s.ots.set ot { t with accessors := t.accessors.set key s.infos.length } } := by
  cases ht : s.ots[ot]? with
  | none => simp [ObjectTemplate.SetAccessor, ht] at h
  | some t =>
    simp only [ObjectTemplate.SetAccessor, ht, Option.some.injEq] at h
    exact ⟨t, rfl, h.symm⟩

theorem funcCounter_set (s : State) (e e2 : Ptr) (eng g : Engine) (fts : List FunctionTemplate)
    (ots : List ObjectTemplate) (infos : List accessorInfo) (h : s.engines[e]? = some eng) :
    funcCounter { engines := s.engines.set e g, fts := fts, ots := ots, infos := infos } e2
      = if e = e2 then g.funcTemplateId else funcCounter s e2 := by
  unfold funcCounter
  simp only [engines_set_get s.engines e e2 g eng h]
  by_cases h2 : e = e2 <;> simp [h2]

theorem objectCounter_set (s : State) (e e2 : Ptr) (eng g : Engine)
    (fts : List FunctionTemplate) (ots : List ObjectTemplate) (infos : List accessorInfo)
    (h : s.engines[e]? = some eng) :
    objectCounter { engines := s.engines.set e g, fts := fts, ots := ots, infos := infos } e2
      = if e = e2 then g.objectTemplateId else objectCounter s e2 := by
  unfold objectCounter
  simp only [engines_set_get s.engines e e2 g eng h]
  by_cases h2 : e = e2 <;> simp [h2]

theorem funcCounter_of_engine (s : State) (e : Ptr) (eng : Engine)
    (h : s.engines[e]? = some eng) : funcCounter s e = eng.funcTemplateId := by
  simp [funcCounter, h]

theorem objectCounter_of_engine (s : State) (e : Ptr) (eng : Engine)
    (h : s.engines[e]? = some eng) : objectCounter s e = eng.objectTemplateId := by
  simp [objectCounter, h]

theorem funcCounter_NewFunctionTemplate (s s1 : State) (e1 e p : Ptr) (cb : Option Closure)
    (h : Engine.NewFunctionTemplate s e1 cb = some (p, s1)) :
    funcCounter s1 e = (if e1 = e then wrapInt (funcCounter s e + 1) else funcCounter s e)
    ∧ funcIdAt s1 p = wrapInt (funcCounter s e1 + 1)
    ∧ objectCounter s1 e = objectCounter s e := by
  cases heng : s.engines[e1]? with
  | none => simp [Engine.NewFunctionTemplate_none s e1 cb heng] at h
  | some eng =>
    rw [Engine.NewFunctionTemplate_eq s e1 cb eng heng] at h
    simp only [Option.some.injEq, Prod.mk.injEq] at h
    obtain ⟨hp, hs⟩ := h
    subst hs
    subst hp
    refine ⟨?_, ?_, ?_⟩
    · rw [funcCounter_set s e1 e eng _ _ _ _ heng]
      by_cases h2 : e1 = e
      · subst h2
        simp [funcCounter_of_engine s e1 eng heng]
      · simp [h2]
    · simp [funcIdAt, funcCounter_of_engine s e1 eng heng]
    · rw [objectCounter_set s e1 e eng _ _ _ _ heng]
      by_cases h2 : e1 = e
      · subst h2
        simp [objectCounter_of_engine s e1 eng heng]
      · simp [h2]

theorem objectCounter_NewObjectTemplate (s s1 : State) (e1 e p : Ptr)
    (h : Engine.NewObjectTemplate s e1 = some (p, s1)) :
    objectCounter s1 e = (if e1 = e then wrapInt (objectCounter s e + 1) else objectCounter s e)
    ∧ objectIdAt s1 p = wrapInt (objectCounter s e1 + 1)
    ∧ funcCounter s1 e = funcCounter s e := by
  cases heng : s.engines[e1]? with
  | none => simp [Engine.NewObjectTemplate_none s e1 heng] at h
  | some eng =>
    rw [Engine.NewObjectTemplate_eq s e1 eng heng] at h
    simp only [Option.some.injEq, Prod.mk.injEq] at h
    obtain ⟨hp, hs⟩ := h
    subst hs
    subst hp
    refine ⟨?_, ?_, ?_⟩
    · rw [objectCounter_set s e1 e eng _ _ _ _ heng]
      by_cases h2 : e1 = e
      · subst h2
        simp [objectCounter_of_engine s e1 eng heng]
      · simp [h2]
    · simp [objectIdAt, objectCounter_of_engine s e1 eng heng]
    · rw [funcCounter_set s e1 e eng _ _ _ _ heng]
      by_cases h2 : e1 = e
      · subst h2
        simp [funcCounter_of_engine s e1 eng heng]
      · simp [h2]

theorem counters_Dispose_func (s s1 : State) (ft e : Ptr)
    (h : FunctionTemplate.Dispose s ft = some s1) :
    funcCounter s1 e = funcCounter s e ∧ objectCounter s1 e = objectCounter s e := by
  rcases FunctionTemplate_Dispose_cases s s1 ft h with h1 | ⟨t, e1, eng, _, _, _, heng, h1⟩
  · subst h1
    exact ⟨rfl, rfl⟩
  · subst h1
    rw [funcCounter_set s e1 e eng _ _ _ _ heng, objectCounter_set s e1 e eng _ _ _ _ heng]
    by_cases h2 : e1 = e
    · subst h2
      simp [funcCounter_of_engine s e1 eng heng, objectCounter_of_engine s e1 eng heng]
    · simp [h2]

theorem counters_Dispose_object (s s1 : State) (ot e : Ptr)
    (h : ObjectTemplate.Dispose s ot = some s1) :
    funcCounter s1 e = funcCounter s e ∧ objectCounter s1 e = objectCounter s e := by
  rcases ObjectTemplate_Dispose_cases s s1 ot h with h1 | ⟨t, e1, eng, _, _, _, heng, h1⟩
  · subst h1
    exact ⟨rfl, rfl⟩
  · subst h1
    rw [funcCounter_set s e1 e eng _ _ _ _ heng, objectCounter_set s e1 e eng _ _ _ _ heng]
    by_cases h2 : e1 = e
    · subst h2
      simp [funcCounter_of_engine s e1 eng heng, objectCounter_of_engine s e1 eng heng]
    · simp [h2]

theorem counters_SetAccessor (s s1 : State) (ot e : Ptr) (key : String)
    (g st : Option Closure) (a : Int)
    (h : ObjectTemplate.SetAccessor s ot key g st a = some s1) :
    funcCounter s1 e = funcCounter s e ∧ objectCounter s1 e = objectCounter s e := by
  obtain ⟨t, _, h1⟩ := ObjectTemplate.SetAccessor_cases s s1 ot key g st a h
  subst h1
  exact ⟨rfl, rfl⟩

theorem issuedFuncIds_getElem? (e : Ptr) :
    ∀ (ops : List Op) (s : State) (i : Nat) (v : Int),
      (issuedFuncIds e s ops)[i]? = some v → v = wrapInt (funcCounter s e + (i : Int) + 1) := by
  intro ops
  induction ops with
  | nil => intro s i v h; simp [issuedFuncIds] at h
  | cons op ops ih =>
    intro s i v h
    cases op with
    | newFunctionTemplate e1 cb =>
      simp only [issuedFuncIds] at h
      cases hN : Engine.NewFunctionTemplate s e1 cb with
      | none => simp [hN] at h
      | some r =>
        obtain ⟨p, s1⟩ := r
        obtain ⟨hc, hid, _⟩ := funcCounter_NewFunctionTemplate s s1 e1 e p cb hN
        simp only [hN] at h
        by_cases h2 : e1 = e
        · subst h2
          simp only [if_true] at h hc
          cases i with
          | zero =>
            simp only [List.getElem?_cons_zero, Option.some.injEq] at h
            rw [← h, hid]
            simp
          | succ j =>
            simp only [List.getElem?_cons_succ] at h
            rw [ih s1 j v h, hc]
            unfold wrapInt
            push_cast
            omega
        · simp only [h2, if_false] at h hc
          rw [ih s1 i v h, hc]
    | newObjectTemplate e1 =>
      simp only [issuedFuncIds, step] at h
      cases hN : Engine.NewObjectTemplate s e1 with
      | none => simp [hN] at h
      | some r =>
        obtain ⟨p, s1⟩ := r
        obtain ⟨_, _, hc⟩ := objectCounter_NewObjectTemplate s s1 e1 e p hN
        simp only [hN, Option.map_some'] at h
        rw [ih s1 i v h, hc]
    | disposeFunctionTemplate ft =>
      simp only [issuedFuncIds, step] at h
      cases hN : FunctionTemplate.Dispose s ft with
      | none => simp [hN] at h
      | some s1 =>
        simp only [hN] at h
        rw [ih s1 i v h, (counters_Dispose_func s s1 ft e hN).1]
    | disposeObjectTemplate ot =>
      simp only [issuedFuncIds, step] at h
      cases hN : ObjectTemplate.Dispose s ot with
      | none => simp [hN] at h
      | some s1 =>
        simp only [hN] at h
        rw [ih s1 i v h, (counters_Dispose_object s s1 ot e hN).1]
    | setAccessor ot key g st a =>
      simp only [issuedFuncIds, step] at h
      cases hN : ObjectTemplate.SetAccessor s ot key g st a with
      | none => simp [hN] at h
      | some s1 =>
        simp only [hN] at h
        rw [ih s1 i v h, (counters_SetAccessor s s1 ot e key g st a hN).1]

theorem issuedFuncIds_length_le (e : Ptr) :
    ∀ (ops : List Op) (s : State), (issuedFuncIds e s ops).length ≤ funcRegs e ops := by
  intro ops
  induction ops with
  | nil => intro s; simp [issuedFuncIds]
  | cons op ops ih =>
    intro s
    cases op with
    | newFunctionTemplate e1 cb =>
      simp only [issuedFuncIds]
      cases hN : Engine.NewFunctionTemplate s e1 cb with
      | none => simp
      | some r =>
        obtain ⟨p, s1⟩ := r
        by_cases h2 : e1 = e
        · simpa [h2, funcRegs, List.countP_cons] using ih s1
        · simpa [h2, funcRegs, List.countP_cons] using ih s1
    | newObjectTemplate e1 =>
      simp only [issuedFuncIds]
      cases hN : step s (Op.newObjectTemplate e1) with
      | none => simp
      | some s1 => simpa [funcRegs, List.countP_cons] using ih s1
    | disposeFunctionTemplate ft =>
      simp only [issuedFuncIds]
      cases hN : step s (Op.disposeFunctionTemplate ft) with
      | none => simp
      | some s1 => simpa [funcRegs, List.countP_cons] using ih s1
    | disposeObjectTemplate ot =>
      simp only [issuedFuncIds]
      cases hN : step s (Op.disposeObjectTemplate ot) with
      | none => simp
      | some s1 => simpa [funcRegs, List.countP_cons] using ih s1
    | setAccessor ot key g st a =>
      simp only [issuedFuncIds]
      cases hN : step s (Op.setAccessor ot key g st a) with
      | none => simp
      | some s1 => simpa [funcRegs, List.countP_cons] using ih s1

theorem issuedObjectIds_getElem? (e : Ptr) :
    ∀ (ops : List Op) (s : State) (i : Nat) (v : Int),
      (issuedObjectIds e s ops)[i]? = some v →
      v = wrapInt (objectCounter s e + (i : Int) + 1) := by
  intro ops
  induction ops with
  | nil => intro s i v h; simp [issuedObjectIds] at h
  | cons op ops ih =>
    intro s i v h
    cases op with
    | newObjectTemplate e1 =>
      simp only [issuedObjectIds] at h
      cases hN : Engine.NewObjectTemplate s e1 with
      | none => simp [hN] at h
      | some r =>
        obtain ⟨p, s1⟩ := r
        obtain ⟨hc, hid, _⟩ := objectCounter_NewObjectTemplate s s1 e1 e p hN
        simp only [hN] at h
        by_cases h2 : e1 = e
        · subst h2
          simp only [if_true] at h hc
          cases i with
          | zero =>
            simp only [List.getElem?_cons_zero, Option.some.injEq] at h
            rw [← h, hid]
            simp
          | succ j =>
            simp only [List.getElem?_cons_succ] at h
            rw [ih s1 j v h, hc]
            unfold wrapInt
            push_cast
            omega
        · simp only [h2, if_false] at h hc
          rw [ih s1 i v h, hc]
    | newFunctionTemplate e1 cb =>
      simp only [issuedObjectIds, step] at h
      cases hN : Engine.NewFunctionTemplate s e1 cb with
      | none => simp [hN] at h
      | some r =>
        obtain ⟨p, s1⟩ := r
        obtain ⟨_, _, hc⟩ := funcCounter_NewFunctionTemplate s s1 e1 e p cb hN
        simp only [hN, Option.map_some'] at h
        rw [ih s1 i v h, hc]
    | disposeFunctionTemplate ft =>
      simp only [issuedObjectIds, step] at h
      cases hN : FunctionTemplate.Dispose s ft with
      | none => simp [hN] at h
      | some s1 =>
        simp only [hN] at h
        rw [ih s1 i v h, (counters_Dispose_func s s1 ft e hN).2]
    | disposeObjectTemplate ot =>
      simp only [issuedObjectIds, step] at h
      cases hN : ObjectTemplate.Dispose s ot with
      | none => simp [hN] at h
      | some s1 =>
        simp only [hN] at h
        rw [ih s1 i v h, (counters_Dispose_object s s1 ot e hN).2]
    | setAccessor ot key g st a =>
      simp only [issuedObjectIds, step] at h
      cases hN : ObjectTemplate.SetAccessor s ot key g st a with
      | none => simp [hN] at h
      | some s1 =>
        simp only [hN] at h
        rw [ih s1 i v h, (counters_SetAccessor s s1 ot e key g st a hN).2]

theorem issuedObjectIds_length_le (e : Ptr) :
    ∀ (ops : List Op) (s : State), (issuedObjectIds e s ops).length ≤ objectRegs e ops := by
  intro ops
  induction ops with
  | nil => intro s; simp [issuedObjectIds]
  | cons op ops ih =>
    intro s
    cases op with
    | newObjectTemplate e1 =>
      simp only [issuedObjectIds]
      cases hN : Engine.NewObjectTemplate s e1 with
      | none => simp
      | some r =>
        obtain ⟨p, s1⟩ := r
        by_cases h2 : e1 = e
        · simpa [h2, objectRegs, List.countP_cons] using ih s1
        · simpa [h2, objectRegs, List.countP_cons] using ih s1
    | newFunctionTemplate e1 cb =>
      simp only [issuedObjectIds]
      cases hN : step s (Op.newFunctionTemplate e1 cb) with
      | none => simp
      | some s1 => simpa [objectRegs, List.countP_cons] using ih s1
    | disposeFunctionTemplate ft =>
      simp only [issuedObjectIds]
      cases hN : step s (Op.disposeFunctionTemplate ft) with
      | none => simp
      | some s1 => simpa [objectRegs, List.countP_cons] using ih s1
    | disposeObjectTemplate ot =>
      simp only [issuedObjectIds]
      cases hN : step s (Op.disposeObjectTemplate ot) with
      | none => simp
      | some s1 => simpa [objectRegs, List.countP_cons] using ih s1
    | setAccessor ot key g st a =>
      simp only [issuedObjectIds]
      cases hN : step s (Op.setAccessor ot key g st a) with
      | none => simp
      | some s1 => simpa [objectRegs, List.countP_cons] using ih s1

theorem issuedFuncIds_length_of_run (e : Ptr) :
    ∀ (ops : List Op) (s s1 : State), run s ops = some s1 →
      (issuedFuncIds e s ops).length = funcRegs e ops := by
  intro ops
  induction ops with
  | nil => intro s s1 _; simp [issuedFuncIds, funcRegs]
  | cons op ops ih =>
    intro s s2 h
    simp only [run] at h
    cases hs : step s op with
    | none => simp [hs] at h
    | some s1 =>
      simp only [hs] at h
      have hrec := ih s1 s2 h
      cases op with
      | newFunctionTemplate e1 cb =>
        simp only [step] at hs
        cases hN : Engine.NewFunctionTemplate s e1 cb with
        | none => simp [hN] at hs
        | some r =>
          obtain ⟨p, s3⟩ := r
          simp only [hN, Option.map_some', Option.some.injEq] at hs
          subst hs
          by_cases h2 : e1 = e
          · subst h2
            simpa [issuedFuncIds, hN, funcRegs, List.countP_cons] using hrec
          · simpa [issuedFuncIds, hN, h2, funcRegs, List.countP_cons] using hrec
      | newObjectTemplate e1 =>
        simpa [issuedFuncIds, hs, funcRegs, List.countP_cons] using hrec
      | disposeFunctionTemplate ft =>
        simpa [issuedFuncIds, hs, funcRegs, List.countP_cons] using hrec
      | disposeObjectTemplate ot =>
        simpa [issuedFuncIds, hs, funcRegs, List.countP_cons] using hrec
      | setAccessor ot key g st a =>
        simpa [issuedFuncIds, hs, funcRegs, List.countP_cons] using hrec

theorem issuedObjectIds_length_of_run (e : Ptr) :
    ∀ (ops : List Op) (s s1 : State), run s ops = some s1 →
      (issuedObjectIds e s ops).length = objectRegs e ops := by
  intro ops
  induction ops with
  | nil => intro s s1 _; simp [issuedObjectIds, objectRegs]
  | cons op ops ih =>
    intro s s2 h
    simp only [run] at h
    cases hs : step s op with
    | none => simp [hs] at h
    | some s1 =>
      simp only [hs] at h
      have hrec := ih s1 s2 h
      cases op with
      | newObjectTemplate e1 =>
        simp only [step] at hs
        cases hN : Engine.NewObjectTemplate s e1 with
        | none => simp [hN] at hs
        | some r =>
          obtain ⟨p, s3⟩ := r
          simp only [hN, Option.map_some', Option.some.injEq] at hs
          subst hs
          by_cases h2 : e1 = e
          · subst h2
            simpa [issuedObjectIds, hN, objectRegs, List.countP_cons] using hrec
          · simpa [issuedObjectIds, hN, h2, objectRegs, List.countP_cons] using hrec
      | newFunctionTemplate e1 cb =>
        simpa [issuedObjectIds, hs, objectRegs, List.countP_cons] using hrec
      | disposeFunctionTemplate ft =>
        simpa [issuedObjectIds, hs, objectRegs, List.countP_cons] using hrec
      | disposeObjectTemplate ot =>
        simpa [issuedObjectIds, hs, objectRegs, List.countP_cons] using hrec
      | setAccessor ot key g st a =>
        simpa [issuedObjectIds, hs, objectRegs, List.countP_cons] using hrec

theorem ids_count_up (ids : List Int) (n : Nat) (c : Int) (hc : c = 0)
    (hlen : ids.length ≤ n) (hn : n < 9223372036854775808)
    (hget : ∀ (i : Nat) (v : Int), ids[i]? = some v → v = wrapInt (c + (i : Int) + 1)) :
    (∀ (i : Nat) (h : i < ids.length), ids[i] = (i : Int) + 1)
    ∧ ids.Pairwise (fun a b => a < b) ∧ ids.Nodup := by
  have hclosed : ∀ (i : Nat) (h : i < ids.length), ids[i] = (i : Int) + 1 := by
    intro i h
    have h1 := hget i ids[i] (List.getElem?_eq_getElem h)
    rw [h1, hc]
    unfold wrapInt
    omega
  have hpw : ids.Pairwise (fun a b => a < b) := by
    rw [List.pairwise_iff_getElem]
    intro i j hi hj hij
    rw [hclosed i hi, hclosed j hj]
    omega
  exact ⟨hclosed, hpw, hpw.imp (fun h => ne_of_lt h)⟩

/-- C3 (amended): for every engine whose function-template counter is 0 and
every finite sequence of registry calls (registrations and disposals of
either kind, on any engine, and accessor updates) that holds fewer than 2^63
`NewFunctionTemplate` calls on that engine, the `i`-th such call (counting
from 0) hands out id `i + 1`: the first id is 1, every later id is strictly
greater than every id handed out before it, and no id is handed out twice,
disposals in between notwithstanding; when no call of the sequence panics
every `NewFunctionTemplate` call on the engine hands out an id. The same
holds for `NewObjectTemplate` with the object-template counter. -/
theorem C3_ids_count_up_below_overflow :
    (∀ (s : State) (e : Ptr) (eng : Engine) (ops : List Op),
      s.engines[e]? = some eng → eng.funcTemplateId = 0 →
      funcRegs e ops < 9223372036854775808 →
      (∀ (i : Nat) (h : i < (issuedFuncIds e s ops).length),
        (issuedFuncIds e s ops)[i] = (i : Int) + 1)
      ∧ (issuedFuncIds e s ops).Pairwise (fun a b => a < b)
      ∧ (issuedFuncIds e s ops).Nodup
      ∧ (∀ s1, run s ops = some s1 → (issuedFuncIds e s ops).length = funcRegs e ops))
    ∧ (∀ (s : State) (e : Ptr) (eng : Engine) (ops : List Op),
      s.engines[e]? = some eng → eng.objectTemplateId = 0 →
      objectRegs e ops < 9223372036854775808 →
      (∀ (i : Nat) (h : i < (issuedObjectIds e s ops).length),
        (issuedObjectIds e s ops)[i] = (i : Int) + 1)
      ∧ (issuedObjectIds e s ops).Pairwise (fun a b => a < b)
      ∧ (issuedObjectIds e s ops).Nodup
      ∧ (∀ s1, run s ops = some s1 →
          (issuedObjectIds e s ops).length = objectRegs e ops)) := by
  constructor
  · intro s e eng ops heng h0 hn
    have hc : funcCounter s e = 0 := by rw [funcCounter_of_engine s e eng heng, h0]
    obtain ⟨h1, h2, h3⟩ := ids_count_up (issuedFuncIds e s ops) (funcRegs e ops)
      (funcCounter s e) hc (issuedFuncIds_length_le e ops s) hn
      (issuedFuncIds_getElem? e ops s)
    exact ⟨h1, h2, h3, fun s1 hr => issuedFuncIds_length_of_run e ops s s1 hr⟩
  · intro s e eng ops heng h0 hn
    have hc : objectCounter s e = 0 := by rw [objectCounter_of_engine s e eng heng, h0]
    obtain ⟨h1, h2, h3⟩ := ids_count_up (issuedObjectIds e s ops) (objectRegs e ops)
      (objectCounter s e) hc (issuedObjectIds_length_le e ops s) hn
      (issuedObjectIds_getElem? e ops s)
    exact ⟨h1, h2, h3, fun s1 hr => issuedObjectIds_length_of_run e ops s s1 hr⟩

/-! ## Long runs of registrations -/

theorem run_append (ops1 ops2 : List Op) :
    ∀ (s : State), run s (ops1 ++ ops2) = (run s ops1).bind (fun s1 => run s1 ops2) := by
  induction ops1 with
  | nil => intro s; rfl
  | cons op ops ih =>
    intro s
    simp only [List.cons_append, run]
    cases step s op with
    | none => rfl
    | some s1 => exact ih s1

theorem step_newFunctionTemplate (s : State) (e : Ptr) (cb : Option Closure) (eng : Engine)
    (heng : s.engines[e]? = some eng) :
    ∃ s1, step s (Op.newFunctionTemplate e cb) = some s1
      ∧ s1.engines[e]? = some { eng with
          funcTemplateId := wrapInt (eng.funcTemplateId + 1),
          funcTemplates :=
            eng.funcTemplates.set (wrapInt (eng.funcTemplateId + 1)) s.fts.length }
      ∧ (∀ e2, e2 ≠ e → s1.engines[e2]? = s.engines[e2]?)
      ∧ s1.fts = s.fts ++ [{ id := wrapInt (eng.funcTemplateId + 1), engine := some e,
                             callback := cb }]
      ∧ s1.ots = s.ots ∧ s1.infos = s.infos := by
  refine ⟨{ s with
      engines := s.engines.set e { eng with
        funcTemplateId := wrapInt (eng.funcTemplateId + 1),
        funcTemplates := eng.funcTemplates.set (wrapInt (eng.funcTemplateId + 1)) s.fts.length },
      fts := s.fts ++ [{ id := wrapInt (eng.funcTemplateId + 1), engine := some e,
                         callback := cb }] }, ?_, ?_, ?_, rfl, rfl, rfl⟩
  · simp only [step, Engine.NewFunctionTemplate_eq s e cb eng heng, Option.map_some']
  · simp [engines_set_get s.engines e e _ eng heng]
  · intro e2 h2
    simp [engines_set_get s.engines e e2 _ eng heng, Ne.symm h2]

theorem step_newObjectTemplate (s : State) (e : Ptr) (eng : Engine)
    (heng : s.engines[e]? = some eng) :
    ∃ s1, step s (Op.newObjectTemplate e) = some s1
      ∧ s1.engines[e]? = some { eng with
          objectTemplateId := wrapInt (eng.objectTemplateId + 1),
          objectTemplates :=
            eng.objectTemplates.set (wrapInt (eng.objectTemplateId + 1)) s.ots.length }
      ∧ (∀ e2, e2 ≠ e → s1.engines[e2]? = s.engines[e2]?)
      ∧ s1.ots = s.ots ++ [{ id := wrapInt (eng.objectTemplateId + 1), engine := some e,
                             accessors := [] }]
      ∧ s1.fts = s.fts ∧ s1.infos = s.infos := by
  refine ⟨{ s with
      engines := s.engines.set e { eng with
        objectTemplateId := wrapInt (eng.objectTemplateId + 1),
        objectTemplates :=
          eng.objectTemplates.set (wrapInt (eng.objectTemplateId + 1)) s.ots.length },
      ots := s.ots ++ [{ id := wrapInt (eng.objectTemplateId + 1), engine := some e,
                         accessors := [] }] }, ?_, ?_, ?_, rfl, rfl, rfl⟩
  · simp only [step, Engine.NewObjectTemplate_eq s e eng heng, Option.map_some']
  · simp [engines_set_get s.engines e e _ eng heng]
  · intro e2 h2
    simp [engines_set_get s.engines e e2 _ eng heng, Ne.symm h2]

theorem run_replicate_newFunctionTemplate (e : Ptr) (cb : Option Closure) :
    ∀ (n : Nat) (s : State) (eng : Engine), s.engines[e]? = some eng →
      ∃ s1 eng1, run s (List.replicate n (Op.newFunctionTemplate e cb)) = some s1
        ∧ s1.engines[e]? = some eng1
        ∧ wrapInt eng1.funcTemplateId = wrapInt (eng.funcTemplateId + (n : Int))
        ∧ s1.fts.length = s.fts.length + n := by
  intro n
  induction n with
  | zero =>
    intro s eng heng
    exact ⟨s, eng, rfl, heng, by simp, by simp⟩
  | succ n ih =>
    intro s eng heng
    obtain ⟨s0, hstep, heng0, _, hfts, _, _⟩ := step_newFunctionTemplate s e cb eng heng
    obtain ⟨s1, eng1, hrun, heng1, hcnt, hlen⟩ := ih s0 _ heng0
    refine ⟨s1, eng1, ?_, heng1, ?_, ?_⟩
    · simp only [List.replicate_succ, run, hstep]
      exact hrun
    · rw [hcnt]
      simp only []
      unfold wrapInt
      push_cast
      omega
    · rw [hlen, hfts]
      simp
      omega

theorem run_replicate_succ_newFunctionTemplate (e : Ptr) (cb : Option Closure) (n : Nat)
    (s : State) (eng : Engine) (heng : s.engines[e]? = some eng) :
    ∃ s1 eng1,
      run s (List.replicate (n + 1) (Op.newFunctionTemplate e cb)) = some s1
      ∧ s1.fts[s.fts.length + n]?
          = some { id := wrapInt (eng.funcTemplateId + (n : Int) + 1), engine := some e,
                   callback := cb }
      ∧ s1.engines[e]? = some eng1
      ∧ eng1.funcTemplates.get (wrapInt (eng.funcTemplateId + (n : Int) + 1))
          = some (s.fts.length + n) := by
  obtain ⟨s0, eng0, hrun, heng0, hcnt, hlen⟩ :=
    run_replicate_newFunctionTemplate e cb n s eng heng
  have hid : wrapInt (eng0.funcTemplateId + 1) = wrapInt (eng.funcTemplateId + (n : Int) + 1) := by
    rw [← wrapInt_succ_wrapInt, hcnt, wrapInt_succ_wrapInt]
  obtain ⟨s1, hstep, heng1, _, hfts, _, _⟩ := step_newFunctionTemplate s0 e cb eng0 heng0
  refine ⟨s1, _, ?_, ?_, heng1, ?_⟩
  · rw [List.replicate_succ', run_append, hrun]
    simp [run, hstep]
  · rw [hfts, ← hlen, ← hid]
    exact List.getElem?_concat_length _ _
  · rw [← hid, ← hlen]
    exact GoMap.get_set_self _ _ _

theorem funcRegs_replicate (e : Ptr) (cb : Option Closure) (n : Nat) :
    funcRegs e (List.replicate n (Op.newFunctionTemplate e cb)) = n := by
  induction n with
  | zero => rfl
  | succ n ih =>
    simp only [funcRegs] at ih
    simp [funcRegs, List.replicate_succ, List.countP_cons, ih]

theorem issuedFuncIds_replicate (e : Ptr) (cb : Option Closure) (n i : Nat) (hi : i < n)
    (s : State) (eng : Engine) (heng : s.engines[e]? = some eng)
    (h0 : eng.funcTemplateId = 0) :
    (issuedFuncIds e s (List.replicate n (Op.newFunctionTemplate e cb)))[i]?
      = some (wrapInt ((i : Int) + 1)) := by
  obtain ⟨s1, _, hrun, _, _, _⟩ := run_replicate_newFunctionTemplate e cb n s eng heng
  have hlen := issuedFuncIds_length_of_run e _ s s1 hrun
  rw [funcRegs_replicate] at hlen
  have hlt : i < (issuedFuncIds e s (List.replicate n (Op.newFunctionTemplate e cb))).length := by
    rw [hlen]
    exact hi
  rw [List.getElem?_eq_getElem hlt]
  have hv := issuedFuncIds_getElem? e _ s i _ (List.getElem?_eq_getElem hlt)
  rw [hv, funcCounter_of_engine s e eng heng, h0]
  simp

theorem State.init_engine (h : Handle) : (State.init [h]).engines[0]? = some (Engine.fresh h) := by
  rfl

/-- C3 counterexample: on a fresh engine, 2^63 consecutive
`NewFunctionTemplate` calls hand out 1 first and -2^63 last: the ids are not
strictly increasing over the whole sequence. -/
theorem C3_counterexample_counter_wraps :
    (issuedFuncIds 0 (State.init [0])
        (List.replicate 9223372036854775808 (Op.newFunctionTemplate 0 none)))[0]? = some 1
    ∧ (issuedFuncIds 0 (State.init [0])
        (List.replicate 9223372036854775808
          (Op.newFunctionTemplate 0 none)))[9223372036854775807]?
        = some (-9223372036854775808)
    ∧ ¬ (issuedFuncIds 0 (State.init [0])
        (List.replicate 9223372036854775808 (Op.newFunctionTemplate 0 none))).Pairwise
          (fun a b => a < b) := by
  have hfirst := issuedFuncIds_replicate 0 none 9223372036854775808 0 (by norm_num)
    (State.init [0]) (Engine.fresh 0) (State.init_engine 0) rfl
  have hlast := issuedFuncIds_replicate 0 none 9223372036854775808 9223372036854775807
    (by norm_num) (State.init [0]) (Engine.fresh 0) (State.init_engine 0) rfl
  have h1 : wrapInt (((0 : Nat) : Int) + 1) = 1 := by
    unfold wrapInt
    norm_num
  have h2 : wrapInt (((9223372036854775807 : Nat) : Int) + 1) = -9223372036854775808 := by
    unfold wrapInt
    norm_num
  rw [h1] at hfirst
  rw [h2] at hlast
  refine ⟨hfirst, hlast, ?_⟩
  intro hpw
  rw [List.pairwise_iff_getElem] at hpw
  obtain ⟨hi, hvi⟩ := List.getElem?_eq_some.mp hfirst
  obtain ⟨hj, hvj⟩ := List.getElem?_eq_some.mp hlast
  have hlt := hpw 0 9223372036854775807 hi hj (by norm_num)
  rw [hvi, hvj] at hlt
  exact absurd hlt (by norm_num)

/-- C5 counterexample: on a fresh engine, after 2^63 consecutive
`NewFunctionTemplate` calls the last template has the nonzero id -2^63, a
live engine back-reference and its own registry entry, and Dispose leaves
the whole state as it is: the id stays in the registry and is not zeroed. -/
theorem C5_counterexample_negative_id_not_disposed :
    ∃ s t eng,
      run (State.init [0])
        (List.replicate 9223372036854775808 (Op.newFunctionTemplate 0 none)) = some s
      ∧ s.fts[9223372036854775807]? = some t
      ∧ t.id = -9223372036854775808 ∧ t.id ≠ 0 ∧ t.engine = some 0
      ∧ s.engines[0]? = some eng
      ∧ eng.funcTemplates.get t.id = some 9223372036854775807
      ∧ FunctionTemplate.Dispose s 9223372036854775807 = some s := by
  obtain ⟨s, eng, hrun, hft, heng, hreg⟩ :=
    run_replicate_succ_newFunctionTemplate 0 none 9223372036854775807
      (State.init [0]) (Engine.fresh 0) (State.init_engine 0)
  have hid : wrapInt ((Engine.fresh 0).funcTemplateId + ((9223372036854775807 : Nat) : Int) + 1)
      = -9223372036854775808 := by
    unfold wrapInt Engine.fresh
    norm_num
  have hlen : (State.init [0]).fts.length + 9223372036854775807 = 9223372036854775807 := by
    simp [State.init]
  rw [hid] at hft hreg
  rw [hlen] at hft hreg
  refine ⟨s, _, eng, hrun, hft, rfl, by norm_num, rfl, heng, hreg, ?_⟩
  exact FunctionTemplate_Dispose_of_not_pos s _ _ hft (by norm_num)

/-! ## The registry invariant -/

theorem RegistrySide_register (n : Ptr → Nat) (tv : Ptr → Option (Int × Option Ptr))
    (ev : Ptr → Option (Int × GoMap Int Ptr)) (e p : Ptr) (c : Int) (reg : GoMap Int Ptr)
    (hinv : RegistrySide n tv ev) (he : ev e = some (c, reg)) (hp : tv p = none)
    (hn : n e + 1 < 18446744073709551616) :
    RegistrySide (Function.update n e (n e + 1))
      (Function.update tv p (some (wrapInt (c + 1), some e)))
      (Function.update ev e (some (wrapInt (c + 1), reg.set (wrapInt (c + 1)) p))) := by
  obtain ⟨hfwd, hbwd⟩ := hinv
  obtain ⟨_, hc, hreg⟩ := hbwd e c reg he
  have hnew : wrapInt (c + 1) = wrapInt (((n e + 1 : Nat) : Int)) := by
    rw [hc]
    unfold wrapInt
    push_cast
    omega
  have hfresh : ∀ k q, reg.get k = some q → k ≠ wrapInt (c + 1) ∧ q ≠ p := by
    intro k q hk
    obtain ⟨htq, j, hj1, hj2, hkj⟩ := hreg k q hk
    constructor
    · rw [hkj, hnew]
      unfold wrapInt
      push_cast
      omega
    · intro hqp
      rw [hqp, hp] at htq
      cases htq
  constructor
  · intro q k eo hq hk
    by_cases hqp : q = p
    · subst hqp
      simp only [Function.update_same, Option.some.injEq, Prod.mk.injEq] at hq
      obtain ⟨hk1, heo⟩ := hq
      refine ⟨e, _, _, heo.symm, by rw [Function.update_same], ?_⟩
      rw [← hk1]
      exact GoMap.get_set_self _ _ _
    · rw [Function.update_noteq hqp] at hq
      obtain ⟨e1, c1, reg1, heo, hev, hget⟩ := hfwd q k eo hq hk
      by_cases he1 : e1 = e
      · subst he1
        rw [he] at hev
        simp only [Option.some.injEq, Prod.mk.injEq] at hev
        obtain ⟨_, hr⟩ := hev
        subst hr
        refine ⟨e1, _, _, heo, by rw [Function.update_same], ?_⟩
        rw [GoMap.get_set_ne _ _ (hfresh k q hget).1]
        exact hget
      · exact ⟨e1, c1, reg1, heo, by rw [Function.update_noteq he1]; exact hev, hget⟩
  · intro e1 c1 reg1 hev
    by_cases he1 : e1 = e
    · subst he1
      simp only [Function.update_same, Option.some.injEq, Prod.mk.injEq] at hev
      obtain ⟨hc1, hr1⟩ := hev
      subst hc1
      subst hr1
      rw [Function.update_same]
      refine ⟨hn, hnew, ?_⟩
      intro k q hk
      by_cases hkn : k = wrapInt (c + 1)
      · subst hkn
        rw [GoMap.get_set_self] at hk
        simp only [Option.some.injEq] at hk
        subst hk
        refine ⟨by rw [Function.update_same], n e1 + 1, by omega, le_refl _, hnew⟩
      · rw [GoMap.get_set_ne _ _ hkn] at hk
        obtain ⟨htq, j, hj1, hj2, hkj⟩ := hreg k q hk
        refine ⟨?_, j, hj1, by omega, hkj⟩
        rw [Function.update_noteq (hfresh k q hk).2]
        exact htq
    · rw [Function.update_noteq he1] at hev
      obtain ⟨hlt, hc1, hreg1⟩ := hbwd e1 c1 reg1 hev
      rw [Function.update_noteq he1]
      refine ⟨hlt, hc1, ?_⟩
      intro k q hk
      obtain ⟨htq, hj⟩ := hreg1 k q hk
      refine ⟨?_, hj⟩
      have hqp : q ≠ p := by
        intro hqp
        rw [hqp, hp] at htq
        cases htq
      rw [Function.update_noteq hqp]
      exact htq

theorem RegistrySide_dispose (n : Ptr → Nat) (tv : Ptr → Option (Int × Option Ptr))
    (ev : Ptr → Option (Int × GoMap Int Ptr)) (e p : Ptr) (k c : Int) (reg : GoMap Int Ptr)
    (hinv : RegistrySide n tv ev) (hp : tv p = some (k, some e)) (hk : k ≠ 0)
    (he : ev e = some (c, reg)) :
    RegistrySide n (Function.update tv p (some (0, none)))
      (Function.update ev e (some (c, reg.delete k))) := by
  obtain ⟨hfwd, hbwd⟩ := hinv
  constructor
  · intro q k1 eo hq hk1
    by_cases hqp : q = p
    · subst hqp
      simp only [Function.update_same, Option.some.injEq, Prod.mk.injEq] at hq
      exact absurd hq.1.symm hk1
    · rw [Function.update_noteq hqp] at hq
      obtain ⟨e1, c1, reg1, heo, hev, hget⟩ := hfwd q k1 eo hq hk1
      by_cases he1 : e1 = e
      · subst he1
        rw [he] at hev
        simp only [Option.some.injEq, Prod.mk.injEq] at hev
        obtain ⟨_, hr⟩ := hev
        subst hr
        refine ⟨e1, _, _, heo, by rw [Function.update_same], ?_⟩
        have hkk : k1 ≠ k := by
          intro hkk
          subst hkk
          obtain ⟨_, _, _, heo2, hev2, hget2⟩ := hfwd p k1 (some e1) hp hk
          simp only [Option.some.injEq] at heo2
          subst heo2
          rw [he] at hev2
          simp only [Option.some.injEq, Prod.mk.injEq] at hev2
          obtain ⟨_, hr2⟩ := hev2
          subst hr2
          rw [hget] at hget2
          exact hqp (Option.some.inj hget2)
        rw [GoMap.get_delete_ne _ hkk]
        exact hget
      · exact ⟨e1, c1, reg1, heo, by rw [Function.update_noteq he1]; exact hev, hget⟩
  · intro e1 c1 reg1 hev
    by_cases he1 : e1 = e
    · subst he1
      simp only [Function.update_same, Option.some.injEq, Prod.mk.injEq] at hev
      obtain ⟨hc1, hr1⟩ := hev
      subst hc1
      subst hr1
      obtain ⟨hlt, hc, hreg⟩ := hbwd e1 c reg he
      refine ⟨hlt, hc, ?_⟩
      intro k1 q hk1
      by_cases hkk : k1 = k
      · subst hkk
        rw [GoMap.get_delete_self] at hk1
        cases hk1
      · rw [GoMap.get_delete_ne _ hkk] at hk1
        obtain ⟨htq, hj⟩ := hreg k1 q hk1
        refine ⟨?_, hj⟩
        have hqp : q ≠ p := by
          intro hqp
          rw [hqp, hp] at htq
          simp only [Option.some.injEq, Prod.mk.injEq] at htq
          exact hkk htq.1.symm
        rw [Function.update_noteq hqp]
        exact htq
    · rw [Function.update_noteq he1] at hev
      obtain ⟨hlt, hc1, hreg1⟩ := hbwd e1 c1 reg1 hev
      refine ⟨hlt, hc1, ?_⟩
      intro k1 q hk1
      obtain ⟨htq, hj⟩ := hreg1 k1 q hk1
      refine ⟨?_, hj⟩
      have hqp : q ≠ p := by
        intro hqp
        rw [hqp, hp] at htq
        simp only [Option.some.injEq, Prod.mk.injEq] at htq
        exact he1 htq.2.symm
      rw [Function.update_noteq hqp]
      exact htq

theorem getElem?_snoc {α : Type} (l : List α) (a : α) (p : Nat) :
    (l ++ [a])[p]? = if p = l.length then some a else l[p]? := by
  by_cases hp : p = l.length
  · subst hp
    simp
  · simp only [hp, if_false]
    by_cases hlt : p < l.length
    · exact List.getElem?_append_left hlt
    · have h1 : l.length ≤ p := by omega
      rw [List.getElem?_eq_none (by simp; omega), List.getElem?_eq_none h1]

theorem getElem?_set_of_lt {α : Type} (l : List α) (p q : Nat) (a : α) (h : p < l.length) :
    (l.set p a)[q]? = if q = p then some a else l[q]? := by
  rw [List.getElem?_set]
  by_cases hq : q = p
  · subst hq
    simp [h]
  · have hq2 : ¬ p = q := fun e => hq e.symm
    simp [hq, hq2]

theorem funcEngineView_update (s s1 : State) (e : Ptr) (g : Engine)
    (h1 : s1.engines[e]? = some g) (h2 : ∀ e2, e2 ≠ e → s1.engines[e2]? = s.engines[e2]?) :
    funcEngineView s1
      = Function.update (funcEngineView s) e (some (g.funcTemplateId, g.funcTemplates)) := by
  funext e2
  by_cases he : e2 = e
  · subst he
    simp [funcEngineView, h1]
  · simp [funcEngineView, Function.update_noteq he, h2 e2 he]

theorem objectEngineView_update (s s1 : State) (e : Ptr) (g : Engine)
    (h1 : s1.engines[e]? = some g) (h2 : ∀ e2, e2 ≠ e → s1.engines[e2]? = s.engines[e2]?) :
    objectEngineView s1
      = Function.update (objectEngineView s) e
          (some (g.objectTemplateId, g.objectTemplates)) := by
  funext e2
  by_cases he : e2 = e
  · subst he
    simp [objectEngineView, h1]
  · simp [objectEngineView, Function.update_noteq he, h2 e2 he]

theorem funcEngineView_same (s s1 : State) (e : Ptr) (eng g : Engine)
    (h0 : s.engines[e]? = some eng)
    (h1 : s1.engines[e]? = some g) (h2 : ∀ e2, e2 ≠ e → s1.engines[e2]? = s.engines[e2]?)
    (hid : g.funcTemplateId = eng.funcTemplateId) (hreg : g.funcTemplates = eng.funcTemplates) :
    funcEngineView s1 = funcEngineView s := by
  rw [funcEngineView_update s s1 e g h1 h2, hid, hreg]
  apply Function.update_eq_self_iff.mpr
  simp [funcEngineView, h0]

theorem objectEngineView_same (s s1 : State) (e : Ptr) (eng g : Engine)
    (h0 : s.engines[e]? = some eng)
    (h1 : s1.engines[e]? = some g) (h2 : ∀ e2, e2 ≠ e → s1.engines[e2]? = s.engines[e2]?)
    (hid : g.objectTemplateId = eng.objectTemplateId)
    (hreg : g.objectTemplates = eng.objectTemplates) :
    objectEngineView s1 = objectEngineView s := by
  rw [objectEngineView_update s s1 e g h1 h2, hid, hreg]
  apply Function.update_eq_self_iff.mpr
  simp [objectEngineView, h0]

theorem funcTemplateView_snoc (s s1 : State) (t : FunctionTemplate)
    (h : s1.fts = s.fts ++ [t]) :
    funcTemplateView s1
      = Function.update (funcTemplateView s) s.fts.length (some (t.id, t.engine)) := by
  funext p
  by_cases hp : p = s.fts.length
  · subst hp
    simp [funcTemplateView, h]
  · simp [funcTemplateView, h, getElem?_snoc, hp, Function.update_noteq hp]

theorem objectTemplateView_snoc (s s1 : State) (t : ObjectTemplate)
    (h : s1.ots = s.ots ++ [t]) :
    objectTemplateView s1
      = Function.update (objectTemplateView s) s.ots.length (some (t.id, t.engine)) := by
  funext p
  by_cases hp : p = s.ots.length
  · subst hp
    simp [objectTemplateView, h]
  · simp [objectTemplateView, h, getElem?_snoc, hp, Function.update_noteq hp]

theorem funcTemplateView_set (s s1 : State) (p : Ptr) (t0 t : FunctionTemplate)
    (h0 : s.fts[p]? = some t0) (h : s1.fts = s.fts.set p t) :
    funcTemplateView s1 = Function.update (funcTemplateView s) p (some (t.id, t.engine)) := by
  have hlt : p < s.fts.length := (List.getElem?_eq_some.mp h0).1
  funext q
  by_cases hq : q = p
  · subst hq
    simp [funcTemplateView, h, hlt]
  · simp [funcTemplateView, h, getElem?_set_of_lt _ _ _ _ hlt, hq, Function.update_noteq hq]

theorem objectTemplateView_set (s s1 : State) (p : Ptr) (t0 t : ObjectTemplate)
    (h0 : s.ots[p]? = some t0) (h : s1.ots = s.ots.set p t) :
    objectTemplateView s1
      = Function.update (objectTemplateView s) p (some (t.id, t.engine)) := by
  have hlt : p < s.ots.length := (List.getElem?_eq_some.mp h0).1
  funext q
  by_cases hq : q = p
  · subst hq
    simp [objectTemplateView, h, hlt]
  · simp [objectTemplateView, h, getElem?_set_of_lt _ _ _ _ hlt, hq, Function.update_noteq hq]

theorem funcEngineView_of_engines_eq (s s1 : State) (h : s1.engines = s.engines) :
    funcEngineView s1 = funcEngineView s := by
  funext e
  simp [funcEngineView, h]

theorem objectEngineView_of_engines_eq (s s1 : State) (h : s1.engines = s.engines) :
    objectEngineView s1 = objectEngineView s := by
  funext e
  simp [objectEngineView, h]

theorem funcTemplateView_of_fts_eq (s s1 : State) (h : s1.fts = s.fts) :
    funcTemplateView s1 = funcTemplateView s := by
  funext e
  simp [funcTemplateView, h]

theorem objectTemplateView_of_ots_eq (s s1 : State) (h : s1.ots = s.ots) :
    objectTemplateView s1 = objectTemplateView s := by
  funext e
  simp [objectTemplateView, h]

theorem engines_set_facts (l : List Engine) (e : Ptr) (g eng : Engine) (h : l[e]? = some eng) :
    (l.set e g)[e]? = some g ∧ ∀ e2, e2 ≠ e → (l.set e g)[e2]? = l[e2]? := by
  constructor
  · simp [engines_set_get l e e g eng h]
  · intro e2 h2
    simp [engines_set_get l e e2 g eng h, Ne.symm h2]

theorem step_preserves_sides (s s1 : State) (op : Op) (nF nO : Ptr → Nat)
    (hF : RegistrySide nF (funcTemplateView s) (funcEngineView s))
    (hO : RegistrySide nO (objectTemplateView s) (objectEngineView s))
    (h : step s op = some s1)
    (hbF : ∀ e, nF e + funcRegs e [op] < 18446744073709551616)
    (hbO : ∀ e, nO e + objectRegs e [op] < 18446744073709551616) :
    RegistrySide (fun e => nF e + funcRegs e [op]) (funcTemplateView s1) (funcEngineView s1)
    ∧ RegistrySide (fun e => nO e + objectRegs e [op])
        (objectTemplateView s1) (objectEngineView s1) := by
  cases op with
  | newFunctionTemplate e cb =>
    cases heng : s.engines[e]? with
    | none => simp [step, Engine.NewFunctionTemplate_none s e cb heng] at h
    | some eng =>
      obtain ⟨s2, hstep, heng1, hother, hfts, hots, _⟩ :=
        step_newFunctionTemplate s e cb eng heng
      rw [hstep] at h
      simp only [Option.some.injEq] at h
      subst h
      have hn : (fun e1 => nF e1 + funcRegs e1 [Op.newFunctionTemplate e cb])
          = Function.update nF e (nF e + 1) := by
        funext e1
        by_cases he : e1 = e
        · subst he
          simp [funcRegs]
        · have he2 : ¬ e = e1 := fun x => he x.symm
          simp [funcRegs, Function.update_noteq he, he2]
      have hn0 : (fun e1 => nO e1 + objectRegs e1 [Op.newFunctionTemplate e cb]) = nO := by
        funext e1
        simp [objectRegs]
      have hb : nF e + 1 < 18446744073709551616 := by
        have := hbF e
        simpa [funcRegs] using this
      rw [hn, hn0, funcTemplateView_snoc s s2 _ hfts, funcEngineView_update s s2 e _ heng1 hother,
        objectTemplateView_of_ots_eq s s2 hots,
        objectEngineView_same s s2 e eng _ heng heng1 hother rfl rfl]
      exact ⟨RegistrySide_register nF _ _ e s.fts.length eng.funcTemplateId eng.funcTemplates hF
        (by simp [funcEngineView, heng]) (by simp [funcTemplateView]) hb, hO⟩
  | newObjectTemplate e =>
    cases heng : s.engines[e]? with
    | none => simp [step, Engine.NewObjectTemplate_none s e heng] at h
    | some eng =>
      obtain ⟨s2, hstep, heng1, hother, hots, hfts, _⟩ :=
        step_newObjectTemplate s e eng heng
      rw [hstep] at h
      simp only [Option.some.injEq] at h
      subst h
      have hn : (fun e1 => nO e1 + objectRegs e1 [Op.newObjectTemplate e])
          = Function.update nO e (nO e + 1) := by
        funext e1
        by_cases he : e1 = e
        · subst he
          simp [objectRegs]
        · have he2 : ¬ e = e1 := fun x => he x.symm
          simp [objectRegs, Function.update_noteq he, he2]
      have hn0 : (fun e1 => nF e1 + funcRegs e1 [Op.newObjectTemplate e]) = nF := by
        funext e1
        simp [funcRegs]
      have hb : nO e + 1 < 18446744073709551616 := by
        have := hbO e
        simpa [objectRegs] using this
      rw [hn, hn0, objectTemplateView_snoc s s2 _ hots,
        objectEngineView_update s s2 e _ heng1 hother,
        funcTemplateView_of_fts_eq s s2 hfts,
        funcEngineView_same s s2 e eng _ heng heng1 hother rfl rfl]
      exact ⟨hF, RegistrySide_register nO _ _ e s.ots.length eng.objectTemplateId
        eng.objectTemplates hO
        (by simp [objectEngineView, heng]) (by simp [objectTemplateView]) hb⟩
  | disposeFunctionTemplate ft =>
    have hnF : (fun e1 => nF e1 + funcRegs e1 [Op.disposeFunctionTemplate ft]) = nF := by
      funext e1
      simp [funcRegs]
    have hnO : (fun e1 => nO e1 + objectRegs e1 [Op.disposeFunctionTemplate ft]) = nO := by
      funext e1
      simp [objectRegs]
    rw [hnF, hnO]
    simp only [step] at h
    rcases FunctionTemplate_Dispose_cases s s1 ft h with h1 | ⟨t, e, eng, ht, hid, he, heng, h1⟩
    · subst h1
      exact ⟨hF, hO⟩
    · obtain ⟨hg, hother⟩ := engines_set_facts s.engines e
        { eng with funcTemplates := eng.funcTemplates.delete t.id } eng heng
      have hfts : s1.fts = s.fts.set ft { t with id := 0, engine := none } := by rw [h1]
      have heng1 : s1.engines[e]?
          = some { eng with funcTemplates := eng.funcTemplates.delete t.id } := by
        rw [h1]
        exact hg
      have hother1 : ∀ e2, e2 ≠ e → s1.engines[e2]? = s.engines[e2]? := by
        rw [h1]
        exact hother
      have hots : s1.ots = s.ots := by rw [h1]
      rw [funcTemplateView_set s s1 ft t _ ht hfts, funcEngineView_update s s1 e _ heng1 hother1,
        objectTemplateView_of_ots_eq s s1 hots,
        objectEngineView_same s s1 e eng _ heng heng1 hother1 rfl rfl]
      exact ⟨RegistrySide_dispose nF _ _ e ft t.id eng.funcTemplateId eng.funcTemplates hF
        (by simp [funcTemplateView, ht, he]) (ne_of_gt hid)
        (by simp [funcEngineView, heng]), hO⟩
  | disposeObjectTemplate ot =>
    have hnF : (fun e1 => nF e1 + funcRegs e1 [Op.disposeObjectTemplate ot]) = nF := by
      funext e1
      simp [funcRegs]
    have hnO : (fun e1 => nO e1 + objectRegs e1 [Op.disposeObjectTemplate ot]) = nO := by
      funext e1
      simp [objectRegs]
    rw [hnF, hnO]
    simp only [step] at h
    rcases ObjectTemplate_Dispose_cases s s1 ot h with h1 | ⟨t, e, eng, ht, hid, he, heng, h1⟩
    · subst h1
      exact ⟨hF, hO⟩
    · obtain ⟨hg, hother⟩ := engines_set_facts s.engines e
        { eng with objectTemplates := eng.objectTemplates.delete t.id } eng heng
      have hots : s1.ots = s.ots.set ot { t with id := 0, engine := none } := by rw [h1]
      have heng1 : s1.engines[e]?
          = some { eng with objectTemplates := eng.objectTemplates.delete t.id } := by
        rw [h1]
        exact hg
      have hother1 : ∀ e2, e2 ≠ e → s1.engines[e2]? = s.engines[e2]? := by
        rw [h1]
        exact hother
      have hfts : s1.fts = s.fts := by rw [h1]
      rw [objectTemplateView_set s s1 ot t _ ht hots,
        objectEngineView_update s s1 e _ heng1 hother1,
        funcTemplateView_of_fts_eq s s1 hfts,
        funcEngineView_same s s1 e eng _ heng heng1 hother1 rfl rfl]
      exact ⟨hF, RegistrySide_dispose nO _ _ e ot t.id eng.objectTemplateId eng.objectTemplates
        hO (by simp [objectTemplateView, ht, he]) (ne_of_gt hid)
        (by simp [objectEngineView, heng])⟩
  | setAccessor ot key g st a =>
    have hnF : (fun e1 => nF e1 + funcRegs e1 [Op.setAccessor ot key g st a]) = nF := by
      funext e1
      simp [funcRegs]
    have hnO : (fun e1 => nO e1 + objectRegs e1 [Op.setAccessor ot key g st a]) = nO := by
      funext e1
      simp [objectRegs]
    rw [hnF, hnO]
    simp only [step] at h
    obtain ⟨t, ht, h1⟩ := ObjectTemplate.SetAccessor_cases s s1 ot key g st a h
    have hots : s1.ots = s.ots.set ot { t with accessors := t.accessors.set key s.infos.length } := by
      rw [h1]
    have hfts : s1.fts = s.fts := by rw [h1]
    have hengs : s1.engines = s.engines := by rw [h1]
    rw [objectTemplateView_set s s1 ot t _ ht hots, funcTemplateView_of_fts_eq s s1 hfts,
      funcEngineView_of_engines_eq s s1 hengs, objectEngineView_of_engines_eq s s1 hengs]
    refine ⟨hF, ?_⟩
    have hself : Function.update (objectTemplateView s) ot
        (some (t.id, t.engine)) = objectTemplateView s := by
      apply Function.update_eq_self_iff.mpr
      simp [objectTemplateView, ht]
    rw [hself]
    exact hO

theorem funcRegs_cons (e : Ptr) (op : Op) (ops : List Op) :
    funcRegs e (op :: ops) = funcRegs e [op] + funcRegs e ops := by
  simp only [funcRegs, List.countP_cons, List.countP_nil]
  omega

theorem objectRegs_cons (e : Ptr) (op : Op) (ops : List Op) :
    objectRegs e (op :: ops) = objectRegs e [op] + objectRegs e ops := by
  simp only [objectRegs, List.countP_cons, List.countP_nil]
  omega

theorem funcRegs_le_length (e : Ptr) (ops : List Op) : funcRegs e ops ≤ ops.length := by
  unfold funcRegs
  exact List.countP_le_length _

theorem objectRegs_le_length (e : Ptr) (ops : List Op) : objectRegs e ops ≤ ops.length := by
  unfold objectRegs
  exact List.countP_le_length _

theorem run_preserves_sides :
    ∀ (ops : List Op) (s s1 : State) (nF nO : Ptr → Nat),
      RegistrySide nF (funcTemplateView s) (funcEngineView s) →
      RegistrySide nO (objectTemplateView s) (objectEngineView s) →
      run s ops = some s1 →
      (∀ e, nF e + funcRegs e ops < 18446744073709551616) →
      (∀ e, nO e + objectRegs e ops < 18446744073709551616) →
      RegistrySide (fun e => nF e + funcRegs e ops) (funcTemplateView s1) (funcEngineView s1)
      ∧ RegistrySide (fun e => nO e + objectRegs e ops)
          (objectTemplateView s1) (objectEngineView s1) := by
  intro ops
  induction ops with
  | nil =>
    intro s s1 nF nO hF hO hrun _ _
    simp only [run, Option.some.injEq] at hrun
    subst hrun
    have h1 : (fun e => nF e + funcRegs e []) = nF := by
      funext e
      simp [funcRegs]
    have h2 : (fun e => nO e + objectRegs e []) = nO := by
      funext e
      simp [objectRegs]
    rw [h1, h2]
    exact ⟨hF, hO⟩
  | cons op ops ih =>
    intro s s2 nF nO hF hO hrun hbF hbO
    simp only [run] at hrun
    cases hs : step s op with
    | none => simp [hs] at hrun
    | some s1 =>
      simp only [hs] at hrun
      have hstep := step_preserves_sides s s1 op nF nO hF hO hs
        (fun e => by have := hbF e; rw [funcRegs_cons] at this; omega)
        (fun e => by have := hbO e; rw [objectRegs_cons] at this; omega)
      have hrec := ih s1 s2 _ _ hstep.1 hstep.2 hrun
        (fun e => by have := hbF e; rw [funcRegs_cons] at this; omega)
        (fun e => by have := hbO e; rw [objectRegs_cons] at this; omega)
      have h1 : (fun e => nF e + funcRegs e (op :: ops))
          = (fun e => nF e + funcRegs e [op] + funcRegs e ops) := by
        funext e
        rw [funcRegs_cons]
        omega
      have h2 : (fun e => nO e + objectRegs e (op :: ops))
          = (fun e => nO e + objectRegs e [op] + objectRegs e ops) := by
        funext e
        rw [objectRegs_cons]
        omega
      rw [h1, h2]
      exact hrec

theorem init_sides (selfs : List Handle) :
    RegistrySide (fun _ => 0) (funcTemplateView (State.init selfs))
      (funcEngineView (State.init selfs))
    ∧ RegistrySide (fun _ => 0) (objectTemplateView (State.init selfs))
      (objectEngineView (State.init selfs)) := by
  have hw : (0 : Int) = wrapInt ((0 : Nat) : Int) := by
    unfold wrapInt
    norm_num
  constructor
  · constructor
    · intro p k eo h
      simp [funcTemplateView, State.init] at h
    · intro e c reg h
      simp only [funcEngineView, State.init, List.getElem?_map, Option.map_map,
        Option.map_eq_some'] at h
      obtain ⟨x, _, hx⟩ := h
      simp only [Function.comp, Engine.fresh, Prod.mk.injEq] at hx
      obtain ⟨hc, hr⟩ := hx
      subst hc
      subst hr
      refine ⟨by norm_num, hw, ?_⟩
      intro k p hk
      simp [GoMap.get] at hk
  · constructor
    · intro p k eo h
      simp [objectTemplateView, State.init] at h
    · intro e c reg h
      simp only [objectEngineView, State.init, List.getElem?_map, Option.map_map,
        Option.map_eq_some'] at h
      obtain ⟨x, _, hx⟩ := h
      simp only [Function.comp, Engine.fresh, Prod.mk.injEq] at hx
      obtain ⟨hc, hr⟩ := hx
      subst hc
      subst hr
      refine ⟨by norm_num, hw, ?_⟩
      intro k p hk
      simp [GoMap.get] at hk

theorem wrapInt_ne_zero_of_ordinal (j n : Nat) (h1 : 1 ≤ j) (h2 : j ≤ n)
    (h3 : n < 18446744073709551616) : wrapInt (j : Int) ≠ 0 := by
  unfold wrapInt
  omega

theorem RegistryInv_of_sides (s : State) (nF nO : Ptr → Nat)
    (hF : RegistrySide nF (funcTemplateView s) (funcEngineView s))
    (hO : RegistrySide nO (objectTemplateView s) (objectEngineView s)) :
    RegistryInv s := by
  refine ⟨?_, ?_, ?_, ?_⟩
  · intro p t ht hid
    obtain ⟨e, c, reg, he, hev, hget⟩ := hF.1 p t.id t.engine
      (by simp [funcTemplateView, ht]) hid
    simp only [funcEngineView, Option.map_eq_some', Prod.mk.injEq] at hev
    obtain ⟨eng, heng, _, hreg⟩ := hev
    exact ⟨e, eng, he, heng, by rw [hreg]; exact hget⟩
  · intro e eng k p heng hget
    obtain ⟨hlt, _, hreg⟩ := hF.2 e eng.funcTemplateId eng.funcTemplates
      (by simp [funcEngineView, heng])
    obtain ⟨htv, j, hj1, hj2, hkj⟩ := hreg k p hget
    simp only [funcTemplateView, Option.map_eq_some', Prod.mk.injEq] at htv
    obtain ⟨t, ht, hid, _⟩ := htv
    exact ⟨t, ht, hid, by rw [hkj]; exact wrapInt_ne_zero_of_ordinal j _ hj1 hj2 hlt⟩
  · intro p t ht hid
    obtain ⟨e, c, reg, he, hev, hget⟩ := hO.1 p t.id t.engine
      (by simp [objectTemplateView, ht]) hid
    simp only [objectEngineView, Option.map_eq_some', Prod.mk.injEq] at hev
    obtain ⟨eng, heng, _, hreg⟩ := hev
    exact ⟨e, eng, he, heng, by rw [hreg]; exact hget⟩
  · intro e eng k p heng hget
    obtain ⟨hlt, _, hreg⟩ := hO.2 e eng.objectTemplateId eng.objectTemplates
      (by simp [objectEngineView, heng])
    obtain ⟨htv, j, hj1, hj2, hkj⟩ := hreg k p hget
    simp only [objectTemplateView, Option.map_eq_some', Prod.mk.injEq] at htv
    obtain ⟨t, ht, hid, _⟩ := htv
    exact ⟨t, ht, hid, by rw [hkj]; exact wrapInt_ne_zero_of_ordinal j _ hj1 hj2 hlt⟩

/-- In every state reached from a heap of fresh engines by registry calls
none of which panics and in which every engine receives fewer than 2^64
registrations of each kind, the registry invariant holds. -/
theorem registry_invariant_below_wraparound (selfs : List Handle) (ops : List Op)
    (s : State) (hrun : run (State.init selfs) ops = some s)
    (hF : ∀ e, funcRegs e ops < 18446744073709551616)
    (hO : ∀ e, objectRegs e ops < 18446744073709551616) :
    RegistryInv s := by
  obtain ⟨h1, h2⟩ := run_preserves_sides ops (State.init selfs) s (fun _ => 0) (fun _ => 0)
    (init_sides selfs).1 (init_sides selfs).2 hrun
    (fun e => by have := hF e; simp only []; omega)
    (fun e => by have := hO e; simp only []; omega)
  exact RegistryInv_of_sides s _ _ h1 h2

/-- The heaps of the embedding are unbounded, and the bound on the size of the
registries cannot be dropped there: the last of 2^64 consecutive
`NewFunctionTemplate` calls on a fresh engine, with 2^64 - 1 templates
registered and undisposed, creates a template with id 0 and stores it under
key 0. -/
theorem registry_invariant_needs_map_bound :
    ∃ s t eng,
      run (State.init [0])
        (List.replicate 18446744073709551616 (Op.newFunctionTemplate 0 none)) = some s
      ∧ s.engines[0]? = some eng
      ∧ eng.funcTemplates.get 0 = some 18446744073709551615
      ∧ s.fts[18446744073709551615]? = some t ∧ t.id = 0
      ∧ ¬ RegistryInv s := by
  obtain ⟨s, eng, hrun, hft, heng, hreg⟩ :=
    run_replicate_succ_newFunctionTemplate 0 none 18446744073709551615
      (State.init [0]) (Engine.fresh 0) (State.init_engine 0)
  have hid : wrapInt ((Engine.fresh 0).funcTemplateId + ((18446744073709551615 : Nat) : Int) + 1)
      = 0 := by
    unfold wrapInt Engine.fresh
    norm_num
  have hlen : (State.init [0]).fts.length + 18446744073709551615 = 18446744073709551615 := by
    simp [State.init]
  rw [hid] at hft hreg
  rw [hlen] at hft hreg
  refine ⟨s, _, eng, hrun, heng, hreg, hft, rfl, ?_⟩
  intro hinv
  obtain ⟨_, _, _, hk⟩ := hinv.2.1 0 eng 0 _ heng hreg
  exact hk rfl

/-! ## Registries of bounded size -/

theorem funcKeys_of_engine (s : State) (e : Ptr) (eng : Engine) (h : s.engines[e]? = some eng) :
    funcKeys s e = eng.funcTemplates.keys := by
  simp [funcKeys, h]

theorem objectKeys_of_engine (s : State) (e : Ptr) (eng : Engine)
    (h : s.engines[e]? = some eng) : objectKeys s e = eng.objectTemplates.keys := by
  simp [objectKeys, h]

theorem engine_of_mem_funcKeys (s : State) (e : Ptr) (k : Int) (h : k ∈ funcKeys s e) :
    ∃ eng, s.engines[e]? = some eng ∧ k ∈ eng.funcTemplates.keys := by
  cases heng : s.engines[e]? with
  | none => simp [funcKeys, heng] at h
  | some eng => exact ⟨eng, rfl, by simpa [funcKeys, heng] using h⟩

theorem engine_of_mem_objectKeys (s : State) (e : Ptr) (k : Int) (h : k ∈ objectKeys s e) :
    ∃ eng, s.engines[e]? = some eng ∧ k ∈ eng.objectTemplates.keys := by
  cases heng : s.engines[e]? with
  | none => simp [objectKeys, heng] at h
  | some eng => exact ⟨eng, rfl, by simpa [objectKeys, heng] using h⟩

theorem keys_step (s s1 : State) (op : Op) (e : Ptr) (k : Int) (h : step s op = some s1)
    (hk : k < 0) :
    (k ∈ funcKeys s e → k ∈ funcKeys s1 e) ∧ (k ∈ objectKeys s e → k ∈ objectKeys s1 e) := by
  cases op with
  | newFunctionTemplate e1 cb =>
    cases heng : s.engines[e1]? with
    | none => simp [step, Engine.NewFunctionTemplate_none s e1 cb heng] at h
    | some eng =>
      obtain ⟨s2, hstep, heng1, hother, _, _, _⟩ := step_newFunctionTemplate s e1 cb eng heng
      rw [hstep] at h
      simp only [Option.some.injEq] at h
      subst h
      by_cases he : e = e1
      · subst he
        rw [funcKeys_of_engine s e eng heng, funcKeys_of_engine s2 e _ heng1,
          objectKeys_of_engine s e eng heng, objectKeys_of_engine s2 e _ heng1]
        exact ⟨fun hm => GoMap_mem_keys_set _ _ _ _ hm, fun hm => hm⟩
      · simp only [funcKeys, objectKeys, hother e he]
        exact ⟨fun hm => hm, fun hm => hm⟩
  | newObjectTemplate e1 =>
    cases heng : s.engines[e1]? with
    | none => simp [step, Engine.NewObjectTemplate_none s e1 heng] at h
    | some eng =>
      obtain ⟨s2, hstep, heng1, hother, _, _, _⟩ := step_newObjectTemplate s e1 eng heng
      rw [hstep] at h
      simp only [Option.some.injEq] at h
      subst h
      by_cases he : e = e1
      · subst he
        rw [funcKeys_of_engine s e eng heng, funcKeys_of_engine s2 e _ heng1,
          objectKeys_of_engine s e eng heng, objectKeys_of_engine s2 e _ heng1]
        exact ⟨fun hm => hm, fun hm => GoMap_mem_keys_set _ _ _ _ hm⟩
      · simp only [funcKeys, objectKeys, hother e he]
        exact ⟨fun hm => hm, fun hm => hm⟩
  | disposeFunctionTemplate ft =>
    simp only [step] at h
    rcases FunctionTemplate_Dispose_cases s s1 ft h with h1 | ⟨t, e1, eng, _, hid, _, heng, h1⟩
    · subst h1
      exact ⟨fun hm => hm, fun hm => hm⟩
    · obtain ⟨hg, hother⟩ := engines_set_facts s.engines e1
        { eng with funcTemplates := eng.funcTemplates.delete t.id } eng heng
      have heng1 : s1.engines[e1]?
          = some { eng with funcTemplates := eng.funcTemplates.delete t.id } := by
        rw [h1]
        exact hg
      have hother1 : ∀ e2, e2 ≠ e1 → s1.engines[e2]? = s.engines[e2]? := by
        rw [h1]
        exact hother
      by_cases he : e = e1
      · subst he
        rw [funcKeys_of_engine s e eng heng, funcKeys_of_engine s1 e _ heng1,
          objectKeys_of_engine s e eng heng, objectKeys_of_engine s1 e _ heng1]
        refine ⟨fun hm => ?_, fun hm => hm⟩
        exact GoMap_mem_keys_delete _ _ _ hm (by omega)
      · simp only [funcKeys, objectKeys, hother1 e he]
        exact ⟨fun hm => hm, fun hm => hm⟩
  | disposeObjectTemplate ot =>
    simp only [step] at h
    rcases ObjectTemplate_Dispose_cases s s1 ot h with h1 | ⟨t, e1, eng, _, hid, _, heng, h1⟩
    · subst h1
      exact ⟨fun hm => hm, fun hm => hm⟩
    · obtain ⟨hg, hother⟩ := engines_set_facts s.engines e1
        { eng with objectTemplates := eng.objectTemplates.delete t.id } eng heng
      have heng1 : s1.engines[e1]?
          = some { eng with objectTemplates := eng.objectTemplates.delete t.id } := by
        rw [h1]
        exact hg
      have hother1 : ∀ e2, e2 ≠ e1 → s1.engines[e2]? = s.engines[e2]? := by
        rw [h1]
        exact hother
      by_cases he : e = e1
      · subst he
        rw [funcKeys_of_engine s e eng heng, funcKeys_of_engine s1 e _ heng1,
          objectKeys_of_engine s e eng heng, objectKeys_of_engine s1 e _ heng1]
        refine ⟨fun hm => hm, fun hm => ?_⟩
        exact GoMap_mem_keys_delete _ _ _ hm (by omega)
      · simp only [funcKeys, objectKeys, hother1 e he]
        exact ⟨fun hm => hm, fun hm => hm⟩
  | setAccessor ot key g st a =>
    simp only [step] at h
    obtain ⟨t, _, h1⟩ := ObjectTemplate.SetAccessor_cases s s1 ot key g st a h
    subst h1
    exact ⟨fun hm => hm, fun hm => hm⟩

theorem keys_run (e : Ptr) (k : Int) (hk : k < 0) :
    ∀ (ops : List Op) (s s2 : State), run s ops = some s2 →
      (k ∈ funcKeys s e → k ∈ funcKeys s2 e) ∧ (k ∈ objectKeys s e → k ∈ objectKeys s2 e) := by
  intro ops
  induction ops with
  | nil =>
    intro s s2 h
    simp only [run, Option.some.injEq] at h
    subst h
    exact ⟨fun hm => hm, fun hm => hm⟩
  | cons op ops ih =>
    intro s s2 h
    simp only [run] at h
    cases hs : step s op with
    | none => simp [hs] at h
    | some s1 =>
      simp only [hs] at h
      obtain ⟨h1, h2⟩ := keys_step s s1 op e k hs hk
      obtain ⟨h3, h4⟩ := ih s1 s2 h
      exact ⟨fun hm => h3 (h1 hm), fun hm => h4 (h2 hm)⟩

theorem counters_step (s s1 : State) (op : Op) (e : Ptr) (h : step s op = some s1) :
    funcCounter s1 e = (if funcRegs e [op] = 1 then wrapInt (funcCounter s e + 1)
      else funcCounter s e)
    ∧ objectCounter s1 e = (if objectRegs e [op] = 1 then wrapInt (objectCounter s e + 1)
      else objectCounter s e)
    ∧ (funcRegs e [op] = 1 → wrapInt (funcCounter s e + 1) ∈ funcKeys s1 e)
    ∧ (objectRegs e [op] = 1 → wrapInt (objectCounter s e + 1) ∈ objectKeys s1 e)
    ∧ funcRegs e [op] ≤ 1 ∧ objectRegs e [op] ≤ 1 := by
  cases op with
  | newFunctionTemplate e1 cb =>
    cases heng : s.engines[e1]? with
    | none => simp [step, Engine.NewFunctionTemplate_none s e1 cb heng] at h
    | some eng =>
      obtain ⟨s2, hstep, heng1, _, _, _, _⟩ := step_newFunctionTemplate s e1 cb eng heng
      have hN := Engine.NewFunctionTemplate_eq s e1 cb eng heng
      rw [hstep] at h
      simp only [Option.some.injEq] at h
      subst h
      simp only [step, hN, Option.map_some', Option.some.injEq] at hstep
      obtain ⟨hc, _, hoc⟩ := funcCounter_NewFunctionTemplate s s2 e1 e s.fts.length cb
        (by rw [hN, hstep])
      by_cases he : e1 = e
      · subst he
        simp only [if_true] at hc
        refine ⟨by simp [funcRegs, hc], by simp [objectRegs, hoc], ?_, by simp [objectRegs],
          by simp [funcRegs], by simp [objectRegs]⟩
        intro _
        rw [funcKeys_of_engine s2 e1 _ heng1, funcCounter_of_engine s e1 eng heng]
        exact GoMap_mem_keys_set_self _ _ _
      · simp only [he, if_false] at hc
        exact ⟨by simp [funcRegs, he, hc], by simp [objectRegs, hoc], by simp [funcRegs, he],
          by simp [objectRegs], by simp [funcRegs, he], by simp [objectRegs]⟩
  | newObjectTemplate e1 =>
    cases heng : s.engines[e1]? with
    | none => simp [step, Engine.NewObjectTemplate_none s e1 heng] at h
    | some eng =>
      obtain ⟨s2, hstep, heng1, _, _, _, _⟩ := step_newObjectTemplate s e1 eng heng
      have hN := Engine.NewObjectTemplate_eq s e1 eng heng
      rw [hstep] at h
      simp only [Option.some.injEq] at h
      subst h
      simp only [step, hN, Option.map_some', Option.some.injEq] at hstep
      obtain ⟨hc, _, hoc⟩ := objectCounter_NewObjectTemplate s s2 e1 e s.ots.length
        (by rw [hN, hstep])
      by_cases he : e1 = e
      · subst he
        simp only [if_true] at hc
        refine ⟨by simp [funcRegs, hoc], by simp [objectRegs, hc], by simp [funcRegs], ?_,
          by simp [funcRegs], by simp [objectRegs]⟩
        intro _
        rw [objectKeys_of_engine s2 e1 _ heng1, objectCounter_of_engine s e1 eng heng]
        exact GoMap_mem_keys_set_self _ _ _
      · simp only [he, if_false] at hc
        exact ⟨by simp [funcRegs, hoc], by simp [objectRegs, he, hc], by simp [funcRegs],
          by simp [objectRegs, he], by simp [funcRegs], by simp [objectRegs, he]⟩
  | disposeFunctionTemplate ft =>
    simp only [step] at h
    obtain ⟨h1, h2⟩ := counters_Dispose_func s s1 ft e h
    exact ⟨by simp [funcRegs, h1], by simp [objectRegs, h2], by simp [funcRegs],
      by simp [objectRegs], by simp [funcRegs], by simp [objectRegs]⟩
  | disposeObjectTemplate ot =>
    simp only [step] at h
    obtain ⟨h1, h2⟩ := counters_Dispose_object s s1 ot e h
    exact ⟨by simp [funcRegs, h1], by simp [objectRegs, h2], by simp [funcRegs],
      by simp [objectRegs], by simp [funcRegs], by simp [objectRegs]⟩
  | setAccessor ot key g st a =>
    simp only [step] at h
    obtain ⟨h1, h2⟩ := counters_SetAccessor s s1 ot e key g st a h
    exact ⟨by simp [funcRegs, h1], by simp [objectRegs, h2], by simp [funcRegs],
      by simp [objectRegs], by simp [funcRegs], by simp [objectRegs]⟩

theorem negative_ids_stay_registered (e : Ptr) :
    ∀ (ops : List Op) (s s2 : State), run s ops = some s2 →
      (∀ j : Nat, 1 ≤ j → j ≤ funcRegs e ops → wrapInt (funcCounter s e + (j : Int)) < 0 →
        wrapInt (funcCounter s e + (j : Int)) ∈ funcKeys s2 e)
      ∧ (∀ j : Nat, 1 ≤ j → j ≤ objectRegs e ops →
        wrapInt (objectCounter s e + (j : Int)) < 0 →
        wrapInt (objectCounter s e + (j : Int)) ∈ objectKeys s2 e) := by
  intro ops
  induction ops with
  | nil =>
    intro s s2 _
    constructor
    · intro j h1 h2
      simp [funcRegs] at h2
      omega
    · intro j h1 h2
      simp [objectRegs] at h2
      omega
  | cons op ops ih =>
    intro s s2 h
    simp only [run] at h
    cases hs : step s op with
    | none => simp [hs] at h
    | some s1 =>
      simp only [hs] at h
      obtain ⟨hcF, hcO, hkF, hkO, hleF, hleO⟩ := counters_step s s1 op e hs
      obtain ⟨ihF, ihO⟩ := ih s1 s2 h
      constructor
      · intro j h1 h2 hneg
        rw [funcRegs_cons] at h2
        by_cases hreg : funcRegs e [op] = 1
        · simp only [hreg, if_true] at hcF
          obtain ⟨i, rfl⟩ : ∃ i, j = i + 1 := ⟨j - 1, by omega⟩
          have hkey : wrapInt (funcCounter s e + ((i + 1 : Nat) : Int))
              = wrapInt (funcCounter s1 e + (i : Int)) := by
            rw [hcF]
            unfold wrapInt
            push_cast
            omega
          by_cases hi : i = 0
          · subst hi
            have hkey1 : wrapInt (funcCounter s e + ((0 + 1 : Nat) : Int))
                = wrapInt (funcCounter s e + 1) := by
              norm_num
            rw [hkey1] at hneg ⊢
            exact (keys_run e _ hneg ops s1 s2 h).1 (hkF hreg)
          · rw [hkey] at hneg ⊢
            exact ihF i (by omega) (by omega) hneg
        · have h0 : funcRegs e [op] = 0 := by omega
          simp only [hreg, if_false] at hcF
          rw [← hcF] at hneg ⊢
          exact ihF j h1 (by omega) hneg
      · intro j h1 h2 hneg
        rw [objectRegs_cons] at h2
        by_cases hreg : objectRegs e [op] = 1
        · simp only [hreg, if_true] at hcO
          obtain ⟨i, rfl⟩ : ∃ i, j = i + 1 := ⟨j - 1, by omega⟩
          have hkey : wrapInt (objectCounter s e + ((i + 1 : Nat) : Int))
              = wrapInt (objectCounter s1 e + (i : Int)) := by
            rw [hcO]
            unfold wrapInt
            push_cast
            omega
          by_cases hi : i = 0
          · subst hi
            have hkey1 : wrapInt (objectCounter s e + ((0 + 1 : Nat) : Int))
                = wrapInt (objectCounter s e + 1) := by
              norm_num
            rw [hkey1] at hneg ⊢
            exact (keys_run e _ hneg ops s1 s2 h).2 (hkO hreg)
          · rw [hkey] at hneg ⊢
            exact ihO i (by omega) (by omega) hneg
        · have h0 : objectRegs e [op] = 0 := by omega
          simp only [hreg, if_false] at hcO
          rw [← hcO] at hneg ⊢
          exact ihO j h1 (by omega) hneg

theorem counters_init (selfs : List Handle) (e : Ptr) :
    funcCounter (State.init selfs) e = 0 ∧ objectCounter (State.init selfs) e = 0 := by
  unfold funcCounter objectCounter State.init
  simp only [List.getElem?_map]
  cases selfs[e]? <;> simp [Engine.fresh]

theorem length_ge_of_negative_keys (keys : List Int)
    (h : ∀ k : Int, -9223372036854775808 ≤ k → k < 0 → k ∈ keys) :
    9223372036854775808 ≤ keys.length := by
  have hsub : Finset.Ico (-9223372036854775808 : Int) 0 ⊆ keys.toFinset := by
    intro k hk
    rw [Finset.mem_Ico] at hk
    exact List.mem_toFinset.mpr (h k hk.1 hk.2)
  have hcard := Finset.card_le_card hsub
  rw [Int.card_Ico] at hcard
  have hlen := List.toFinset_card_le keys
  have hval : ((0 : Int) - (-9223372036854775808)).toNat = 9223372036854775808 := by
    decide
  omega

theorem regs_lt_of_fits (selfs : List Handle) (ops : List Op) (s : State) (e : Ptr)
    (hrun : run (State.init selfs) ops = some s) (hfit : MapsFit s) :
    funcRegs e ops < 18446744073709551616 ∧ objectRegs e ops < 18446744073709551616 := by
  obtain ⟨hF, hO⟩ := negative_ids_stay_registered e ops (State.init selfs) s hrun
  obtain ⟨hcF, hcO⟩ := counters_init selfs e
  rw [hcF] at hF
  rw [hcO] at hO
  constructor
  · by_contra hge
    have hall : ∀ k : Int, -9223372036854775808 ≤ k → k < 0 → k ∈ funcKeys s e := by
      intro k hk1 hk2
      have hw : wrapInt (0 + (((k + 18446744073709551616).toNat : Nat) : Int)) = k := by
        rw [Int.toNat_of_nonneg (by omega)]
        unfold wrapInt
        omega
      have := hF (k + 18446744073709551616).toNat (by omega) (by omega) (by rw [hw]; exact hk2)
      rw [hw] at this
      exact this
    obtain ⟨eng, heng, _⟩ := engine_of_mem_funcKeys s e (-1) (hall (-1) (by norm_num) (by norm_num))
    rw [funcKeys_of_engine s e eng heng] at hall
    have hlen := length_ge_of_negative_keys _ hall
    have hfit1 := (hfit eng (List.getElem?_mem heng)).1
    simp only [GoMap.keys, List.length_map] at hlen
    omega
  · by_contra hge
    have hall : ∀ k : Int, -9223372036854775808 ≤ k → k < 0 → k ∈ objectKeys s e := by
      intro k hk1 hk2
      have hw : wrapInt (0 + (((k + 18446744073709551616).toNat : Nat) : Int)) = k := by
        rw [Int.toNat_of_nonneg (by omega)]
        unfold wrapInt
        omega
      have := hO (k + 18446744073709551616).toNat (by omega) (by omega) (by rw [hw]; exact hk2)
      rw [hw] at this
      exact this
    obtain ⟨eng, heng, _⟩ :=
      engine_of_mem_objectKeys s e (-1) (hall (-1) (by norm_num) (by norm_num))
    rw [objectKeys_of_engine s e eng heng] at hall
    have hlen := length_ge_of_negative_keys _ hall
    have hfit1 := (hfit eng (List.getElem?_mem heng)).2
    simp only [GoMap.keys, List.length_map] at hlen
    omega

/-- C4: in every state reached from a heap of fresh engines by a sequence of
`NewFunctionTemplate`, `NewObjectTemplate`, `Dispose` and `SetAccessor`
calls none of which panics, the registries holding fewer than 2^63 entries
each as every Go map does, the registry invariant holds: every template
whose id is nonzero has a non-nil engine back-reference to a live engine
whose registry of that kind maps the id to exactly this template, and every
template stored in a registry has a nonzero id equal to its key. -/
theorem C4_registry_invariant_reachable (selfs : List Handle) (ops : List Op) (s : State)
    (hrun : run (State.init selfs) ops = some s) (hfit : MapsFit s) :
    RegistryInv s :=
  registry_invariant_below_wraparound selfs ops s hrun
    (fun e => (regs_lt_of_fits selfs ops s e hrun hfit).1)
    (fun e => (regs_lt_of_fits selfs ops s e hrun hfit).2)

theorem RegistrySide_id_pos (n : Ptr → Nat) (tv : Ptr → Option (Int × Option Ptr))
    (ev : Ptr → Option (Int × GoMap Int Ptr)) (hinv : RegistrySide n tv ev)
    (hn : ∀ e, n e < 9223372036854775808) (p : Ptr) (k : Int) (eo : Option Ptr)
    (hp : tv p = some (k, eo)) (hk : k ≠ 0) :
    0 < k ∧ ∃ e c reg, eo = some e ∧ ev e = some (c, reg) := by
  obtain ⟨e, c, reg, heo, hev, hget⟩ := hinv.1 p k eo hp hk
  obtain ⟨_, _, hreg⟩ := hinv.2 e c reg hev
  obtain ⟨_, j, hj1, hj2, hkj⟩ := hreg k p hget
  have hne := hn e
  refine ⟨?_, e, c, reg, heo, hev⟩
  rw [hkj]
  unfold wrapInt
  omega

/-! ## The effect of Dispose on an attached template -/

/-- C5 (amended): for every template whose id is positive and whose engine
back-reference points to a live engine, Dispose removes exactly that id from
the engine's registry of that kind, sets the template's id to 0 and its
engine back-reference to nil, and leaves unchanged: every other entry of that
registry, the registry of the other kind, both id counters, the engine's
native handle, every other engine, every other template of either kind and
every accessor record. In every state reached from fresh engines by calls
none of which panics, with fewer than 2^63 registrations of each kind on
each engine, every template with a nonzero id has a positive id and a live
engine back-reference, so that Dispose acts on it in this way. -/
theorem C5_dispose_removes_exactly_own_id :
    (∀ (s : State) (ft : Ptr) (t : FunctionTemplate) (e : Ptr) (eng : Engine),
      s.fts[ft]? = some t → 0 < t.id → t.engine = some e → s.engines[e]? = some eng →
      ∃ s1 eng1, FunctionTemplate.Dispose s ft = some s1
        ∧ s1.fts[ft]? = some { t with id := 0, engine := none }
        ∧ (∀ p, p ≠ ft → s1.fts[p]? = s.fts[p]?)
        ∧ s1.ots = s.ots ∧ s1.infos = s.infos
        ∧ s1.engines[e]? = some eng1
        ∧ eng1.funcTemplates.get t.id = none
        ∧ (∀ k, k ≠ t.id → eng1.funcTemplates.get k = eng.funcTemplates.get k)
        ∧ eng1.objectTemplates = eng.objectTemplates
        ∧ eng1.funcTemplateId = eng.funcTemplateId
        ∧ eng1.objectTemplateId = eng.objectTemplateId
        ∧ eng1.self = eng.self
        ∧ (∀ e2, e2 ≠ e → s1.engines[e2]? = s.engines[e2]?))
    ∧ (∀ (s : State) (ot : Ptr) (t : ObjectTemplate) (e : Ptr) (eng : Engine),
      s.ots[ot]? = some t → 0 < t.id → t.engine = some e → s.engines[e]? = some eng →
      ∃ s1 eng1, ObjectTemplate.Dispose s ot = some s1
        ∧ s1.ots[ot]? = some { t with id := 0, engine := none }
        ∧ (∀ p, p ≠ ot → s1.ots[p]? = s.ots[p]?)
        ∧ s1.fts = s.fts ∧ s1.infos = s.infos
        ∧ s1.engines[e]? = some eng1
        ∧ eng1.objectTemplates.get t.id = none
        ∧ (∀ k, k ≠ t.id → eng1.objectTemplates.get k = eng.objectTemplates.get k)
        ∧ eng1.funcTemplates = eng.funcTemplates
        ∧ eng1.funcTemplateId = eng.funcTemplateId
        ∧ eng1.objectTemplateId = eng.objectTemplateId
        ∧ eng1.self = eng.self
        ∧ (∀ e2, e2 ≠ e → s1.engines[e2]? = s.engines[e2]?))
    ∧ (∀ (selfs : List Handle) (ops : List Op) (s : State),
      run (State.init selfs) ops = some s →
      (∀ e, funcRegs e ops < 9223372036854775808) →
      (∀ e, objectRegs e ops < 9223372036854775808) →
      (∀ (p : Ptr) (t : FunctionTemplate), s.fts[p]? = some t → t.id ≠ 0 →
        0 < t.id ∧ ∃ e eng, t.engine = some e ∧ s.engines[e]? = some eng)
      ∧ (∀ (p : Ptr) (t : ObjectTemplate), s.ots[p]? = some t → t.id ≠ 0 →
        0 < t.id ∧ ∃ e eng, t.engine = some e ∧ s.engines[e]? = some eng)) := by
  refine ⟨?_, ?_, ?_⟩
  · intro s ft t e eng ht hid he heng
    have hlt : ft < s.fts.length := (List.getElem?_eq_some.mp ht).1
    refine ⟨_, { eng with funcTemplates := eng.funcTemplates.delete t.id },
      FunctionTemplate_Dispose_eq_of_attached s ft t e eng ht hid he heng,
      ?_, ?_, rfl, rfl, ?_, ?_, ?_, rfl, rfl, rfl, rfl, ?_⟩
    · simp [List.getElem?_set_self hlt]
    · intro p hp
      simp [List.getElem?_set_ne (Ne.symm hp)]
    · simp [engines_set_get s.engines e e _ eng heng]
    · exact GoMap.get_delete_self _ _
    · intro k hk
      exact GoMap.get_delete_ne _ hk
    · intro e2 h2
      simp [engines_set_get s.engines e e2 _ eng heng, Ne.symm h2]
  · intro s ot t e eng ht hid he heng
    have hlt : ot < s.ots.length := (List.getElem?_eq_some.mp ht).1
    refine ⟨_, { eng with objectTemplates := eng.objectTemplates.delete t.id },
      ObjectTemplate_Dispose_eq_of_attached s ot t e eng ht hid he heng,
      ?_, ?_, rfl, rfl, ?_, ?_, ?_, rfl, rfl, rfl, rfl, ?_⟩
    · simp [List.getElem?_set_self hlt]
    · intro p hp
      simp [List.getElem?_set_ne (Ne.symm hp)]
    · simp [engines_set_get s.engines e e _ eng heng]
    · exact GoMap.get_delete_self _ _
    · intro k hk
      exact GoMap.get_delete_ne _ hk
    · intro e2 h2
      simp [engines_set_get s.engines e e2 _ eng heng, Ne.symm h2]
  · intro selfs ops s hrun hF hO
    obtain ⟨h1, h2⟩ := run_preserves_sides ops (State.init selfs) s (fun _ => 0) (fun _ => 0)
      (init_sides selfs).1 (init_sides selfs).2 hrun
      (fun e => by have := hF e; simp only []; omega)
      (fun e => by have := hO e; simp only []; omega)
    constructor
    · intro p t ht hid
      obtain ⟨hpos, e, c, reg, he, hev⟩ := RegistrySide_id_pos _ _ _ h1
        (fun e => by have := hF e; omega) p t.id t.engine
        (by simp [funcTemplateView, ht]) hid
      simp only [funcEngineView, Option.map_eq_some'] at hev
      obtain ⟨eng, heng, _⟩ := hev
      exact ⟨hpos, e, eng, he, heng⟩
    · intro p t ht hid
      obtain ⟨hpos, e, c, reg, he, hev⟩ := RegistrySide_id_pos _ _ _ h2
        (fun e => by have := hO e; omega) p t.id t.engine
        (by simp [objectTemplateView, ht]) hid
      simp only [objectEngineView, Option.map_eq_some'] at hev
      obtain ⟨eng, heng, _⟩ := hev
      exact ⟨hpos, e, eng, he, heng⟩

/-! ## Accessors -/

theorem lastCallFor_snoc (done : List accessorInfo) (c : accessorInfo) (k : String) :
    lastCallFor (done ++ [c]) k = if c.key = k then some c else lastCallFor done k := by
  unfold lastCallFor
  rw [List.reverse_append]
  by_cases h : c.key = k
  · simp [List.find?_cons, h]
  · simp [List.find?_cons, h]

theorem lastCallFor_some (calls : List accessorInfo) (k : String) (c : accessorInfo)
    (h : lastCallFor calls k = some c) : c ∈ calls ∧ c.key = k := by
  unfold lastCallFor at h
  have h1 := List.mem_of_find?_eq_some h
  have h2 := List.find?_some h
  exact ⟨List.mem_reverse.mp h1, by simpa using h2⟩

theorem AccessorsTrack_SetAccessor (s s1 : State) (ot e : Ptr) (done : List accessorInfo)
    (c : accessorInfo) (h : AccessorsTrack s ot e done)
    (hs : ObjectTemplate.SetAccessor s ot c.key c.getter c.setter c.attribs = some s1) :
    AccessorsTrack s1 ot e (done ++ [c]) ∧ s1.engines = s.engines := by
  obtain ⟨t, ht, he, hnd, hent, hcov⟩ := h
  obtain ⟨t1, ht1, hs1⟩ := ObjectTemplate.SetAccessor_cases s s1 ot c.key c.getter c.setter
    c.attribs hs
  rw [ht] at ht1
  simp only [Option.some.injEq] at ht1
  subst ht1
  have hlt : ot < s.ots.length := (List.getElem?_eq_some.mp ht).1
  subst hs1
  refine ⟨⟨{ t with accessors := t.accessors.set c.key s.infos.length }, ?_, he, ?_, ?_, ?_⟩, rfl⟩
  · simp [List.getElem?_set_self hlt]
  · show (GoMap.keys ((c.key, s.infos.length) :: t.accessors.delete c.key)).Nodup
    simp only [GoMap.keys, List.map_cons, List.nodup_cons]
    exact ⟨GoMap_not_mem_keys_delete t.accessors c.key,
      GoMap_keys_delete_nodup t.accessors c.key hnd⟩
  · intro k a hmem
    have hmem1 : (k, a) = (c.key, s.infos.length) ∨ (k, a) ∈ t.accessors.delete c.key := by
      simpa [GoMap.set] using hmem
    rcases hmem1 with heq | hold
    · simp only [Prod.mk.injEq] at heq
      obtain ⟨hk, ha⟩ := heq
      subst hk
      subst ha
      refine ⟨c, ?_, rfl, ?_⟩
      · simp
      · rw [lastCallFor_snoc]
        simp
    · obtain ⟨hm, hne⟩ := (GoMap_mem_delete t.accessors c.key k a).mp hold
      obtain ⟨c0, hc0, hk0, hl0⟩ := hent k a hm
      refine ⟨c0, ?_, hk0, ?_⟩
      · have halt : a < s.infos.length := (List.getElem?_eq_some.mp hc0).1
        simp only []
        rw [List.getElem?_append_left halt]
        exact hc0
      · rw [lastCallFor_snoc]
        have hne2 : ¬ c.key = k := fun x => hne x.symm
        simp [hne2, hl0]
  · intro c1 hc1
    show c1.key ∈ GoMap.keys ((c.key, s.infos.length) :: t.accessors.delete c.key)
    simp only [GoMap.keys, List.map_cons, List.mem_cons]
    by_cases hk : c1.key = c.key
    · exact Or.inl hk
    · right
      rcases List.mem_append.mp hc1 with hd | hlast
      · exact GoMap_mem_keys_delete t.accessors c.key c1.key (hcov c1 hd) hk
      · simp only [List.mem_singleton] at hlast
        exact absurd (by rw [hlast]) hk

theorem AccessorsTrack_setAccessors (ot e : Ptr) :
    ∀ (calls done : List accessorInfo) (s : State), AccessorsTrack s ot e done →
      ∃ s2, setAccessors s ot calls = some s2 ∧ AccessorsTrack s2 ot e (done ++ calls)
        ∧ s2.engines = s.engines := by
  intro calls
  induction calls with
  | nil =>
    intro done s h
    exact ⟨s, rfl, by simpa using h, rfl⟩
  | cons c cs ih =>
    intro done s h
    obtain ⟨t, ht, _⟩ := id h
    have hstep : ObjectTemplate.SetAccessor s ot c.key c.getter c.setter c.attribs
        = some { s with
            infos := s.infos ++ [{ key := c.key, getter := c.getter, setter := c.setter,
                                   attribs := c.attribs }],
            ots := s.ots.set ot { t with accessors := t.accessors.set c.key s.infos.length } } := by
      simp [ObjectTemplate.SetAccessor, ht]
    obtain ⟨h1, heng1⟩ := AccessorsTrack_SetAccessor s _ ot e done c h hstep
    obtain ⟨s2, hrun, h2, heng2⟩ := ih (done ++ [c]) _ h1
    refine ⟨s2, ?_, ?_, ?_⟩
    · simp only [setAccessors, hstep]
      exact hrun
    · simpa using h2
    · rw [heng2, heng1]

theorem installAccessors_spec (s : State) (o : Object) (status : Ptr → Int)
    (P : String × Ptr → accessorInfo → Prop) :
    ∀ (visit : List (String × Ptr)),
      (∀ entry, entry ∈ visit → ∃ c, s.infos[entry.2]? = some c ∧ P entry c) →
      ∃ installs, installAccessors s o status visit = some installs
        ∧ List.Forall₂ (fun entry ev => ∃ c, s.infos[entry.2]? = some c ∧ P entry c
            ∧ ev = Event.V8_Object_SetAccessor o.value.self c.key (toCInt c.key.utf8ByteSize)
                (ClosurePtr.getter entry.2) (ClosurePtr.setter entry.2) (toCInt c.attribs))
          visit installs := by
  intro visit
  induction visit with
  | nil =>
    intro _
    exact ⟨[], rfl, List.Forall₂.nil⟩
  | cons entry rest ih =>
    intro h
    obtain ⟨c, hc, hP⟩ := h entry (List.mem_cons_self _ _)
    obtain ⟨installs, hrest, hall⟩ := ih (fun x hx => h x (List.mem_cons_of_mem _ hx))
    obtain ⟨k, a⟩ := entry
    refine ⟨_ :: installs, ?_, List.Forall₂.cons ⟨c, hc, hP, rfl⟩ hall⟩
    simp only at hc
    simp [installAccessors, Object.setAccessor, hc, hrest]

theorem installedKeys_of_forall₂ (R : String × Ptr → Event → Prop)
    (hR : ∀ entry ev, R entry ev → ∃ o len g st a,
      ev = Event.V8_Object_SetAccessor o entry.1 len g st a) :
    ∀ (visit : List (String × Ptr)) (installs : List Event),
      List.Forall₂ R visit installs →
      installedKeys installs = visit.map Prod.fst
      ∧ ∀ ev, ev ∈ installs → ∃ entry, entry ∈ visit ∧ R entry ev := by
  intro visit installs h
  induction h with
  | nil => exact ⟨rfl, by simp⟩
  | @cons entry ev rest restInstalls hhead _ ih =>
    obtain ⟨o, len, g, st, a, hev⟩ := hR entry ev hhead
    constructor
    · subst hev
      simp only [installedKeys, List.filterMap_cons, List.map_cons]
      simp only [installedKeys] at ih
      rw [ih.1]
    · intro ev1 hmem
      rcases List.mem_cons.mp hmem with h1 | h1
      · subst h1
        exact ⟨entry, List.mem_cons_self _ _, hhead⟩
      · obtain ⟨x, hx, hRx⟩ := ih.2 ev1 h1
        exact ⟨x, List.mem_cons_of_mem _ hx, hRx⟩

theorem toCInt_low_word (a : Int) : toCInt a % 4294967296 = a % 4294967296 := by
  unfold toCInt
  omega

theorem toCInt_low_bits (a : Int) : toCInt a % 8 = a % 8 := by
  unfold toCInt
  omega

theorem toCInt_of_fits (a : Int) (h1 : -2147483648 ≤ a) (h2 : a < 2147483648) :
    toCInt a = a := by
  unfold toCInt
  omega

theorem NewObject_of_track (s : State) (ot e : Ptr) (eng : Engine) (calls : List accessorInfo)
    (t : ObjectTemplate) (ht : s.ots[ot]? = some t) (he : t.engine = some e)
    (heng : s.engines[e]? = some eng)
    (hent : ∀ k a, (k, a) ∈ t.accessors →
      ∃ c, s.infos[a]? = some c ∧ c.key = k ∧ lastCallFor calls k = some c)
    (h : Handle) (status : Ptr → Int) (visit : List (String × Ptr))
    (hvisit : RangeOrder t.accessors visit) :
    ∃ installs, ObjectTemplate.NewObject s ot (some h) status visit
        = some (some ⟨h⟩, Event.V8_NewObject eng.self :: installs)
      ∧ installedKeys installs = visit.map Prod.fst
      ∧ installTargets installs = List.replicate installs.length h
      ∧ (installedKeys installs).length = installs.length
      ∧ (∀ ev, ev ∈ installs → ∃ c a, lastCallFor calls c.key = some c
          ∧ ev = Event.V8_Object_SetAccessor h c.key (toCInt c.key.utf8ByteSize)
              (ClosurePtr.getter a) (ClosurePtr.setter a) (toCInt c.attribs)
          ∧ derefClosure s (ClosurePtr.getter a) = some c.getter
          ∧ derefClosure s (ClosurePtr.setter a) = some c.setter) := by
  obtain ⟨installs, hrun, hall⟩ := installAccessors_spec s (Value.ToObject ⟨h⟩) status
    (fun entry c => c.key = entry.1 ∧ lastCallFor calls entry.1 = some c) visit
    (fun entry hmem => by
      obtain ⟨c, hc, hk, hl⟩ := hent entry.1 entry.2 (hvisit.mem_iff.mp hmem)
      exact ⟨c, hc, hk, hl⟩)
  obtain ⟨hkeys, hmem⟩ := installedKeys_of_forall₂ _
    (fun entry ev hR => by
      obtain ⟨c, _, ⟨hk, _⟩, hev⟩ := hR
      rw [hk] at hev
      exact ⟨_, _, _, _, _, hev⟩) visit installs hall
  have hlen : installs.length = visit.length := hall.length_eq.symm
  have htargets : installTargets installs = List.replicate installs.length h := by
    have : ∀ ev, ev ∈ installs → ∃ k len g st a,
        ev = Event.V8_Object_SetAccessor h k len g st a := by
      intro ev hev
      obtain ⟨entry, _, c, _, _, hev2⟩ := hmem ev hev
      exact ⟨_, _, _, _, _, hev2⟩
    clear hall hrun hkeys hmem hlen
    induction installs with
    | nil => rfl
    | cons ev rest ih =>
      obtain ⟨k, len, g, st, a, hev⟩ := this ev (List.mem_cons_self _ _)
      subst hev
      have ih1 := ih (fun x hx => this x (List.mem_cons_of_mem _ hx))
      simp only [installTargets] at ih1
      simp only [installTargets, List.filterMap_cons, List.length_cons, List.replicate_succ,
        ih1]
  refine ⟨installs, ?_, hkeys, htargets, ?_, ?_⟩
  · simp only [ObjectTemplate.NewObject, ht, he, Engine.NewObject, heng, newValue,
      Option.map_some', hrun]
    rfl
  · rw [hkeys, List.length_map, hlen]
  · intro ev hev
    obtain ⟨entry, _, c, hc, ⟨hk, hl⟩, hev2⟩ := hmem ev hev
    refine ⟨c, entry.2, by rw [hk]; exact hl, hev2, ?_, ?_⟩
    · simp [derefClosure, hc]
    · simp [derefClosure, hc]

/-- C6 (amended): for every object template created by `NewObjectTemplate` on
a live engine and every sequence `calls` of `SetAccessor` calls made on it,
all calls return, and `NewObject` (the engine answering with a non-null
object `h`, in whatever order `range` visits the accessor mapping) returns
that object after one `V8_NewObject` call followed by
`V8_Object_SetAccessor` calls only, all on `h`: one per distinct property
name set so far (the names installed are distinct, and a name is installed
exactly when some call set it), each passing the name, the addresses of the
getter and the setter of the last `SetAccessor` call for that name, and the
attributes of that call converted by `C.int`: their low 32 bits, hence the
same attribute flags, and the same value whenever it fits in a C `int`. -/
theorem C6_new_object_installs_last_write_per_name (s : State) (e : Ptr) (eng : Engine)
    (calls : List accessorInfo) (heng : s.engines[e]? = some eng) :
    ∃ ot s1 s2 t,
      Engine.NewObjectTemplate s e = some (ot, s1)
      ∧ setAccessors s1 ot calls = some s2
      ∧ s2.ots[ot]? = some t
      ∧ ∀ (h : Handle) (status : Ptr → Int) (visit : List (String × Ptr)),
          RangeOrder t.accessors visit →
          ∃ installs,
            ObjectTemplate.NewObject s2 ot (some h) status visit
              = some (some ⟨h⟩, Event.V8_NewObject eng.self :: installs)
            ∧ (installedKeys installs).length = installs.length
            ∧ installTargets installs = List.replicate installs.length h
            ∧ (installedKeys installs).Nodup
            ∧ (∀ k, k ∈ installedKeys installs ↔ k ∈ calls.map (fun c => c.key))
            ∧ (∀ ev, ev ∈ installs → ∃ c a, lastCallFor calls c.key = some c
                ∧ ev = Event.V8_Object_SetAccessor h c.key (toCInt c.key.utf8ByteSize)
                    (ClosurePtr.getter a) (ClosurePtr.setter a) (toCInt c.attribs)
                ∧ derefClosure s2 (ClosurePtr.getter a) = some c.getter
                ∧ derefClosure s2 (ClosurePtr.setter a) = some c.setter
                ∧ toCInt c.attribs % 4294967296 = c.attribs % 4294967296
                ∧ toCInt c.attribs % 8 = c.attribs % 8
                ∧ (-2147483648 ≤ c.attribs → c.attribs < 2147483648 →
                    toCInt c.attribs = c.attribs)) := by
  obtain ⟨s1, hstep, heng1, _, hots, _, _⟩ := step_newObjectTemplate s e eng heng
  have hnew : Engine.NewObjectTemplate s e = some (s.ots.length, s1) := by
    rw [Engine.NewObjectTemplate_eq s e eng heng]
    simp only [step, Engine.NewObjectTemplate_eq s e eng heng, Option.map_some',
      Option.some.injEq] at hstep
    rw [hstep]
  have htrack0 : AccessorsTrack s1 s.ots.length e [] := by
    refine ⟨{ id := wrapInt (eng.objectTemplateId + 1), engine := some e, accessors := [] },
      ?_, rfl, ?_, ?_, ?_⟩
    · rw [hots]
      exact List.getElem?_concat_length _ _
    · simp [GoMap.keys]
    · intro k a hmem
      simp at hmem
    · intro c hc
      simp at hc
  obtain ⟨s2, hrun, ⟨t, ht, he, hnd, hent, hcov⟩, hengs⟩ :=
    AccessorsTrack_setAccessors s.ots.length e calls [] s1 htrack0
  simp only [List.nil_append] at hent hcov
  have heng2 : s2.engines[e]? = some { eng with
      objectTemplateId := wrapInt (eng.objectTemplateId + 1),
      objectTemplates :=
        eng.objectTemplates.set (wrapInt (eng.objectTemplateId + 1)) s.ots.length } := by
    rw [hengs]
    exact heng1
  refine ⟨s.ots.length, s1, s2, t, hnew, hrun, ht, ?_⟩
  intro h status visit hvisit
  obtain ⟨installs, hobj, hkeys, htargets, hlen, hevs⟩ :=
    NewObject_of_track s2 s.ots.length e _ calls t ht he heng2 hent h status visit hvisit
  have hperm : (visit.map Prod.fst).Perm t.accessors.keys := by
    unfold GoMap.keys
    exact List.Perm.map _ hvisit
  refine ⟨installs, hobj, hlen, htargets, ?_, ?_, ?_⟩
  · rw [hkeys]
    exact hperm.nodup_iff.mpr hnd
  · intro k
    rw [hkeys, hperm.mem_iff]
    constructor
    · intro hk
      simp only [GoMap.keys, List.mem_map] at hk
      obtain ⟨⟨k1, a⟩, hmem, hk1⟩ := hk
      simp only at hk1
      subst hk1
      obtain ⟨c, _, _, hl⟩ := hent k1 a hmem
      obtain ⟨hc1, hc2⟩ := lastCallFor_some calls k1 c hl
      exact List.mem_map.mpr ⟨c, hc1, hc2⟩
    · intro hk
      obtain ⟨c, hc, hck⟩ := List.mem_map.mp hk
      rw [← hck]
      exact hcov c hc
  · intro ev hev
    obtain ⟨c, a, hl, hev2, hg, hst⟩ := hevs ev hev
    exact ⟨c, a, hl, hev2, hg, hst, toCInt_low_word _, toCInt_low_bits _, toCInt_of_fits _⟩

/-- C6 counterexample: on a fresh engine, after
`SetAccessor("x", 1, 2, 4294967301)` the call `NewObject` installs "x" with
attributes 5, not with the attributes 4294967301 of that call. -/
theorem C6_counterexample_attributes_truncated :
    ((Engine.NewObjectTemplate (State.init [0]) 0).bind (fun r =>
        (ObjectTemplate.SetAccessor r.2 r.1 "x" (some 1) (some 2) 4294967301).bind (fun s2 =>
          ObjectTemplate.NewObject s2 r.1 (some 5) (fun _ => 1) [("x", 0)])))
      = some (some ⟨5⟩, [Event.V8_NewObject 0,
          Event.V8_Object_SetAccessor 5 "x" 1 (ClosurePtr.getter 0) (ClosurePtr.setter 0) 5])
    ∧ lastCallFor [{ key := "x", getter := some 1, setter := some 2, attribs := 4294967301 }] "x"
      = some { key := "x", getter := some 1, setter := some 2, attribs := 4294967301 }
    ∧ (5 : Int) ≠ 4294967301 := by
  refine ⟨?_, ?_, ?_⟩ <;> decide

/-- C7: for every attached object template whose accessor mapping holds
exactly the accessor `a`, `NewObject` installs exactly `a` on the first
object; a following `SetAccessor` for a new name `b` returns, makes no native
call (it has no trace) and leaves the record and the closures that the first
object's accessor refers to as they were; and a second `NewObject` installs
on the second object exactly the two accessors `a` and `b`, in some order. -/
theorem C7_objects_get_the_accessors_present_at_creation (s : State) (ot e : Ptr)
    (t : ObjectTemplate) (eng : Engine) (a b : String) (pa : Ptr) (ia : accessorInfo)
    (g st : Option Closure) (attribs : Int)
    (ht : s.ots[ot]? = some t) (he : t.engine = some e) (heng : s.engines[e]? = some eng)
    (hacc : t.accessors = [(a, pa)]) (hia : s.infos[pa]? = some ia) (hkey : ia.key = a)
    (hab : b ≠ a) :
    (∀ (h1 : Handle) (status1 : Ptr → Int) (visit1 : List (String × Ptr)),
      RangeOrder t.accessors visit1 →
      ObjectTemplate.NewObject s ot (some h1) status1 visit1
        = some (some ⟨h1⟩, [Event.V8_NewObject eng.self,
            Event.V8_Object_SetAccessor h1 a (toCInt a.utf8ByteSize)
              (ClosurePtr.getter pa) (ClosurePtr.setter pa) (toCInt ia.attribs)]))
    ∧ ∃ s2 t2, ObjectTemplate.SetAccessor s ot b g st attribs = some s2
        ∧ s2.ots[ot]? = some t2
        ∧ s2.infos[pa]? = some ia
        ∧ derefClosure s2 (ClosurePtr.getter pa) = derefClosure s (ClosurePtr.getter pa)
        ∧ derefClosure s2 (ClosurePtr.setter pa) = derefClosure s (ClosurePtr.setter pa)
        ∧ ∀ (h2 : Handle) (status2 : Ptr → Int) (visit2 : List (String × Ptr)),
            RangeOrder t2.accessors visit2 →
            ∃ installs,
              ObjectTemplate.NewObject s2 ot (some h2) status2 visit2
                = some (some ⟨h2⟩, Event.V8_NewObject eng.self :: installs)
              ∧ installs.length = 2
              ∧ (installedKeys installs).Perm [a, b]
              ∧ installTargets installs = [h2, h2] := by
  have hlt : ot < s.ots.length := (List.getElem?_eq_some.mp ht).1
  have hpa : pa < s.infos.length := (List.getElem?_eq_some.mp hia).1
  constructor
  · intro h1 status1 visit1 hvisit
    rw [hacc] at hvisit
    have hv : visit1 = [(a, pa)] := List.perm_singleton.mp hvisit
    subst hv
    simp [ObjectTemplate.NewObject, ht, he, Engine.NewObject, heng, newValue, installAccessors,
      Object.setAccessor, hia, hkey, Value.ToObject]
  · obtain ⟨s2, hs2⟩ : ∃ s2 : State, s2 = { s with
        infos := s.infos ++ [{ key := b, getter := g, setter := st, attribs := attribs }],
        ots := s.ots.set ot { t with accessors := t.accessors.set b s.infos.length } } :=
      ⟨_, rfl⟩
    have hset : ObjectTemplate.SetAccessor s ot b g st attribs = some s2 := by
      rw [hs2]
      simp [ObjectTemplate.SetAccessor, ht]
    have hinfos : s2.infos
        = s.infos ++ [{ key := b, getter := g, setter := st, attribs := attribs }] := by
      rw [hs2]
    have hia2 : s2.infos[pa]? = some ia := by
      rw [hinfos, List.getElem?_append_left hpa]
      exact hia
    have hnew : s2.infos[s.infos.length]?
        = some { key := b, getter := g, setter := st, attribs := attribs } := by
      rw [hinfos]
      exact List.getElem?_concat_length _ _
    have heng2 : s2.engines[e]? = some eng := by
      rw [hs2]
      exact heng
    have hba : ¬ a = b := fun x => hab x.symm
    have hmap : t.accessors.set b s.infos.length = [(b, s.infos.length), (a, pa)] := by
      rw [hacc]
      simp [GoMap.set, GoMap.delete, hba]
    have ht2 : s2.ots[ot]? = some { t with accessors := [(b, s.infos.length), (a, pa)] } := by
      rw [hs2, ← hmap]
      simp only []
      rw [List.getElem?_set_self hlt]
    refine ⟨s2, { t with accessors := [(b, s.infos.length), (a, pa)] }, hset, ht2, hia2,
      ?_, ?_, ?_⟩
    · simp only [derefClosure, hia2, hia]
    · simp only [derefClosure, hia2, hia]
    · intro h2 status2 visit2 hvisit
      obtain ⟨installs, hobj, hkeys, htargets, hlen, _⟩ :=
        NewObject_of_track s2 ot e eng
          [ia, { key := b, getter := g, setter := st, attribs := attribs }]
          { t with accessors := [(b, s.infos.length), (a, pa)] } ht2 he heng2
          (by
            intro k p hmem
            simp only [List.mem_cons, Prod.mk.injEq, List.mem_singleton,
              List.not_mem_nil, or_false] at hmem
            rcases hmem with ⟨hk, hp⟩ | ⟨hk, hp⟩
            · rw [hk, hp]
              refine ⟨{ key := b, getter := g, setter := st, attribs := attribs }, hnew, rfl, ?_⟩
              exact (lastCallFor_snoc [ia] _ b).trans (by simp)
            · rw [hk, hp]
              refine ⟨ia, hia2, hkey, ?_⟩
              refine (lastCallFor_snoc [ia] _ a).trans ?_
              simp [hab, lastCallFor, hkey])
          h2 status2 visit2 hvisit
      have hperm : (visit2.map Prod.fst).Perm [b, a] := List.Perm.map Prod.fst hvisit
      have hlen2 : installs.length = 2 := by
        rw [← hlen, hkeys]
        exact hperm.length_eq
      refine ⟨installs, hobj, hlen2, ?_, ?_⟩
      · rw [hkeys]
        exact hperm.trans (List.Perm.swap a b [])
      · rw [htargets, hlen2]
        rfl

/-! ## Dispatch bridge after Dispose -/

theorem FunctionTemplate_Dispose_callback (s s1 : State) (ft : Ptr) (t : FunctionTemplate)
    (ht : s.fts[ft]? = some t) (h : FunctionTemplate.Dispose s ft = some s1) :
    ∃ t1, s1.fts[ft]? = some t1 ∧ t1.callback = t.callback := by
  have hlt : ft < s.fts.length := (List.getElem?_eq_some.mp ht).1
  rcases FunctionTemplate_Dispose_cases s s1 ft h with h1 | ⟨t0, e, eng, ht0, _, _, _, h1⟩
  · subst h1
    exact ⟨t, ht, rfl⟩
  · rw [ht] at ht0
    simp only [Option.some.injEq] at ht0
    subst ht0
    subst h1
    exact ⟨{ t with id := 0, engine := none }, by simp [List.getElem?_set_self hlt], rfl⟩

theorem ObjectTemplate_Dispose_infos (s s1 : State) (ot : Ptr)
    (h : ObjectTemplate.Dispose s ot = some s1) : s1.infos = s.infos := by
  rcases ObjectTemplate_Dispose_cases s s1 ot h with h1 | ⟨_, _, _, _, _, _, _, h1⟩
  · rw [h1]
  · rw [h1]

/-- C8 (amended): Dispose does not change what the dispatch bridge does. For
every function template still in the heap that has been disposed,
`go_function_callback` invoked afterwards with the closure pointer captured
from that template (the address of its callback field) does exactly what it
did before Dispose: it makes no disposal check, reads the callback field,
which Dispose leaves as it was, and calls a non-nil callback once, with a
frame view wrapping the frame pointer and an unresolved return slot; on a nil
callback it panics. Likewise `go_getter_callback` and `go_setter_callback`
with the address of the getter or the setter of an accessor record of a
disposed object template: a non-nil closure is called with the property name
(and the value handle) given, a nil one panics, as before Dispose. -/
theorem C8_bridge_ignores_disposal :
    (∀ (s s1 : State) (ft : Ptr) (t : FunctionTemplate) (info : Handle),
      s.fts[ft]? = some t → FunctionTemplate.Dispose s ft = some s1 →
      go_function_callback s1 info (ClosurePtr.funcCallback ft)
        = go_function_callback s info (ClosurePtr.funcCallback ft)
      ∧ go_function_callback s1 info (ClosurePtr.funcCallback ft)
        = t.callback.map
            (fun f => [Event.callFunction f { self := info, returnValue := ⟨none⟩ }]))
    ∧ (∀ (s s1 : State) (ot : Ptr) (t : ObjectTemplate) (key : String) (a : Ptr)
        (r : accessorInfo) (name : String) (info : Handle),
      s.ots[ot]? = some t → t.accessors.get key = some a → s.infos[a]? = some r →
      ObjectTemplate.Dispose s ot = some s1 →
      go_getter_callback s1 name info (ClosurePtr.getter a)
        = go_getter_callback s name info (ClosurePtr.getter a)
      ∧ go_getter_callback s1 name info (ClosurePtr.getter a)
        = r.getter.map
            (fun f => [Event.callGetter f name { self := info, returnValue := ⟨none⟩ }]))
    ∧ (∀ (s s1 : State) (ot : Ptr) (t : ObjectTemplate) (key : String) (a : Ptr)
        (r : accessorInfo) (name : String) (value : Option Handle) (info : Handle),
      s.ots[ot]? = some t → t.accessors.get key = some a → s.infos[a]? = some r →
      ObjectTemplate.Dispose s ot = some s1 →
      go_setter_callback s1 name value info (ClosurePtr.setter a)
        = go_setter_callback s name value info (ClosurePtr.setter a)
      ∧ go_setter_callback s1 name value info (ClosurePtr.setter a)
        = r.setter.map
            (fun f => [Event.callSetter f name (newValue value) { self := info }])) := by
  refine ⟨?_, ?_, ?_⟩
  · intro s s1 ft t info ht hd
    obtain ⟨t1, ht1, hcb1⟩ := FunctionTemplate_Dispose_callback s s1 ft t ht hd
    cases hcb : t.callback with
    | none => simp [go_function_callback, derefClosure, ht, ht1, hcb1, hcb]
    | some f => simp [go_function_callback, derefClosure, ht, ht1, hcb1, hcb]
  · intro s s1 ot t key a r name info _ _ hr hd
    have hinfos := ObjectTemplate_Dispose_infos s s1 ot hd
    cases hg : r.getter with
    | none => simp [go_getter_callback, derefClosure, hinfos, hr, hg]
    | some f => simp [go_getter_callback, derefClosure, hinfos, hr, hg]
  · intro s s1 ot t key a r name value info _ _ hr hd
    have hinfos := ObjectTemplate_Dispose_infos s s1 ot hd
    cases hg : r.setter with
    | none => simp [go_setter_callback, derefClosure, hinfos, hr, hg]
    | some f => simp [go_setter_callback, derefClosure, hinfos, hr, hg]

/-- C8 counterexample: a function template with callback 7 is registered on a
fresh engine, instantiated (the engine receives the address of its callback
field) and disposed; `go_function_callback` invoked afterwards with that
address calls closure 7. -/
theorem C8_counterexample_disposed_callback_is_called :
    Engine.NewFunctionTemplate (State.init [0]) 0 (some 7) = some (0, exFuncRegistered)
    ∧ FunctionTemplate.NewFunction exFuncRegistered 0 (some 9)
        = some (some ⟨9⟩, [Event.V8_NewFunction 0 (ClosurePtr.funcCallback 0)])
    ∧ FunctionTemplate.Dispose exFuncRegistered 0 = some exFuncDisposed
    ∧ go_function_callback exFuncDisposed 3 (ClosurePtr.funcCallback 0)
        = some [Event.callFunction 7 { self := 3, returnValue := ⟨none⟩ }] := by
  refine ⟨?_, ?_, ?_, ?_⟩ <;> decide

/-! ## WrapObject on a disposed template -/

/-- C9 (the code at the failing input): an object template is registered on a
fresh engine, given the accessor "x" and disposed, so its engine
back-reference is nil and `NewObject` returns nil without a native call;
`WrapObject` on the existing object 5 nevertheless makes one
`V8_Object_SetAccessor` call, installing "x" on it. -/
theorem C9_wrapObject_installs_on_disposed_template :
    Engine.NewObjectTemplate (State.init [0]) 0 = some (0, exObjRegistered)
    ∧ ObjectTemplate.SetAccessor exObjRegistered 0 "x" (some 1) (some 2) 0
        = some exObjWithAccessor
    ∧ ObjectTemplate.Dispose exObjWithAccessor 0 = some exObjDisposed
    ∧ ObjectTemplate.NewObject exObjDisposed 0 (some 5) (fun _ => 1) [("x", 0)]
        = some (none, [])
    ∧ ObjectTemplate.WrapObject exObjDisposed 0 ⟨5⟩ (fun _ => 1) [("x", 0)]
        = some [Event.V8_Object_SetAccessor 5 "x" 1
            (ClosurePtr.getter 0) (ClosurePtr.setter 0) 0] := by
  refine ⟨?_, ?_, ?_, ?_, ?_⟩ <;> decide

/-! ## RegExp caches -/

theorem RegExp.PatternCalls_of_cached (r : RegExp) (h : r.patternCached = true)
    (xs : List String) :
    RegExp.PatternCalls r xs
      = (List.replicate xs.length r.pattern, r, List.replicate xs.length []) := by
  induction xs with
  | nil => rfl
  | cons x xs ih =>
    have hp : r.Pattern x = (r.pattern, r, []) := by simp [RegExp.Pattern, h]
    simp only [RegExp.PatternCalls, hp, ih, List.length_cons, List.replicate_succ]

theorem RegExp.FlagsCalls_of_cached (r : RegExp) (h : r.flagsCached = true)
    (xs : List Int) :
    RegExp.FlagsCalls r xs
      = (List.replicate xs.length r.flags, r, List.replicate xs.length []) := by
  induction xs with
  | nil => rfl
  | cons x xs ih =>
    have hp : r.Flags x = (r.flags, r, []) := by simp [RegExp.Flags, h]
    simp only [RegExp.FlagsCalls, hp, ih, List.length_cons, List.replicate_succ]

theorem RegExp.Pattern_cached_after (r : RegExp) (x : String) :
    (r.Pattern x).2.1.patternCached = true ∧ (r.Pattern x).2.1.pattern = (r.Pattern x).1 := by
  unfold RegExp.Pattern
  cases h : r.patternCached <;> simp [h]

theorem RegExp.Flags_cached_after (r : RegExp) (x : Int) :
    (r.Flags x).2.1.flagsCached = true ∧ (r.Flags x).2.1.flags = (r.Flags x).1 := by
  unfold RegExp.Flags
  cases h : r.flagsCached <;> simp [h]

theorem flatten_replicate_nil {α : Type} (n : Nat) :
    (List.replicate n ([] : List α)).flatten = [] := by
  induction n with
  | zero => rfl
  | succ n ih => simp [List.replicate_succ, ih]

/-- C10: for every RegExp view `r` and every `n = xs.length + 1 ≥ 1` consecutive
calls of `Pattern()`, whatever strings `x :: xs` the engine would answer with,
all calls return the value of the first call, every call after the first makes
no native call at all, the calls together make at most one
`V8_RegExp_Pattern` call, and an uncached view returns the engine's answer
`x` itself (the empty string included). The same holds for `Flags()` and
`V8_RegExp_Flags`. -/
theorem C10_regexp_reads_cached (r : RegExp) :
    (∀ (x : String) (xs : List String),
      (RegExp.PatternCalls r (x :: xs)).1 = List.replicate (xs.length + 1) (r.Pattern x).1
      ∧ (RegExp.PatternCalls r (x :: xs)).2.2
          = (r.Pattern x).2.2 :: List.replicate xs.length []
      ∧ patternCallCount (RegExp.PatternCalls r (x :: xs)).2.2.flatten ≤ 1
      ∧ (r.patternCached = false → (r.Pattern x).1 = x))
    ∧ (∀ (x : Int) (xs : List Int),
      (RegExp.FlagsCalls r (x :: xs)).1 = List.replicate (xs.length + 1) (r.Flags x).1
      ∧ (RegExp.FlagsCalls r (x :: xs)).2.2
          = (r.Flags x).2.2 :: List.replicate xs.length []
      ∧ flagsCallCount (RegExp.FlagsCalls r (x :: xs)).2.2.flatten ≤ 1
      ∧ (r.flagsCached = false → (r.Flags x).1 = x)) := by
  constructor
  · intro x xs
    obtain ⟨hc, hv⟩ := RegExp.Pattern_cached_after r x
    have hrest := RegExp.PatternCalls_of_cached (r.Pattern x).2.1 hc xs
    have hcalls : RegExp.PatternCalls r (x :: xs)
        = ((r.Pattern x).1 :: List.replicate xs.length (r.Pattern x).1, (r.Pattern x).2.1,
            (r.Pattern x).2.2 :: List.replicate xs.length []) := by
      simp only [RegExp.PatternCalls, hrest, hv]
    refine ⟨?_, ?_, ?_, ?_⟩
    · rw [hcalls, List.replicate_succ]
    · rw [hcalls]
    · rw [hcalls]
      simp only [List.flatten_cons, flatten_replicate_nil, List.append_nil]
      unfold RegExp.Pattern patternCallCount
      cases r.patternCached <;> simp
    · intro h
      simp [RegExp.Pattern, h]
  · intro x xs
    obtain ⟨hc, hv⟩ := RegExp.Flags_cached_after r x
    have hrest := RegExp.FlagsCalls_of_cached (r.Flags x).2.1 hc xs
    have hcalls : RegExp.FlagsCalls r (x :: xs)
        = ((r.Flags x).1 :: List.replicate xs.length (r.Flags x).1, (r.Flags x).2.1,
            (r.Flags x).2.2 :: List.replicate xs.length []) := by
      simp only [RegExp.FlagsCalls, hrest, hv]
    refine ⟨?_, ?_, ?_, ?_⟩
    · rw [hcalls, List.replicate_succ]
    · rw [hcalls]
    · rw [hcalls]
      simp only [List.flatten_cons, flatten_replicate_nil, List.append_nil]
      unfold RegExp.Flags flagsCallCount
      cases r.flagsCached <;> simp
    · intro h
      simp [RegExp.Flags, h]

/-! ## The theorems at concrete heaps -/

/-- C1 at a concrete heap: disposing the registered template of
`exFuncRegistered` gives `exFuncDisposed`, and disposing again changes
nothing; likewise for the object template of `exObjWithAccessor`. -/
theorem C1_witness_registered_templates :
    FunctionTemplate.Dispose exFuncRegistered 0 = some exFuncDisposed
    ∧ FunctionTemplate.Dispose exFuncDisposed 0 = some exFuncDisposed
    ∧ ObjectTemplate.Dispose exObjWithAccessor 0 = some exObjDisposed
    ∧ ObjectTemplate.Dispose exObjDisposed 0 = some exObjDisposed :=
  ⟨by decide,
   C1_dispose_twice_eq_once.2.2.1 exFuncRegistered exFuncDisposed 0 (by decide),
   by decide,
   C1_dispose_twice_eq_once.2.2.2.1 exObjWithAccessor exObjDisposed 0 (by decide)⟩

/-- C2 at a concrete heap: the disposed templates of `exFuncDisposed` and
`exObjDisposed` (the latter with a non-empty accessor mapping) instantiate to
nil with an empty trace. -/
theorem C2_witness_disposed_templates :
    FunctionTemplate.NewFunction exFuncDisposed 0 (some 9) = some (none, [])
    ∧ ObjectTemplate.NewObject exObjDisposed 0 (some 5) (fun _ => 1) [("x", 0)]
        = some (none, []) :=
  ⟨C2_disposed_template_yields_nil.2.2.1 exFuncRegistered exFuncDisposed 0
     { id := 1, engine := some 0, callback := some 7 } (some 9)
     (by decide) (by decide) (by decide),
   C2_disposed_template_yields_nil.2.2.2 exObjWithAccessor exObjDisposed 0
     { id := 1, engine := some 0, accessors := [("x", 0)] } (some 5) (fun _ => 1) [("x", 0)]
     (by decide) (by decide) (by decide)⟩

/-- C3 at a concrete run: three registrations with a disposal and an
object-template registration in between hand out 1, 2, 3. -/
theorem C3_witness_three_registrations :
    issuedFuncIds 0 (State.init [0])
        [Op.newFunctionTemplate 0 (some 7), Op.disposeFunctionTemplate 0,
         Op.newFunctionTemplate 0 none, Op.newObjectTemplate 0,
         Op.newFunctionTemplate 0 none] = [1, 2, 3]
    ∧ (issuedFuncIds 0 (State.init [0])
        [Op.newFunctionTemplate 0 (some 7), Op.disposeFunctionTemplate 0,
         Op.newFunctionTemplate 0 none, Op.newObjectTemplate 0,
         Op.newFunctionTemplate 0 none]).Pairwise (fun a b => a < b) :=
  ⟨by decide,
   (C3_ids_count_up_below_overflow.1 (State.init [0]) 0 (Engine.fresh 0)
     [Op.newFunctionTemplate 0 (some 7), Op.disposeFunctionTemplate 0,
      Op.newFunctionTemplate 0 none, Op.newObjectTemplate 0,
      Op.newFunctionTemplate 0 none] (by decide) (by decide) (by decide)).2.1⟩

/-- C4 at a concrete run: registering two function templates, disposing the
first, registering an object template and giving it an accessor leads to
`exAttached`, whose registries hold one entry each; the attached function
template (id 2) and the attached object template (id 1) are registered under
their ids, and the invariant holds. -/
theorem C4_witness_attached_templates :
    run (State.init [0])
        [Op.newFunctionTemplate 0 (some 7), Op.newFunctionTemplate 0 none,
         Op.disposeFunctionTemplate 0, Op.newObjectTemplate 0,
         Op.setAccessor 0 "x" (some 1) (some 2) 0] = some exAttached
    ∧ MapsFit exAttached
    ∧ exAttached.fts[1]? = some { id := 2, engine := some 0, callback := none }
    ∧ exAttached.ots[0]? = some { id := 1, engine := some 0, accessors := [("x", 0)] }
    ∧ RegistryInv exAttached :=
  ⟨by decide, by unfold MapsFit; decide, by decide, by decide,
   C4_registry_invariant_reachable [0]
     [Op.newFunctionTemplate 0 (some 7), Op.newFunctionTemplate 0 none,
      Op.disposeFunctionTemplate 0, Op.newObjectTemplate 0,
      Op.setAccessor 0 "x" (some 1) (some 2) 0] exAttached
     (by decide) (by unfold MapsFit; decide)⟩

/-- C5 at a concrete heap: disposing the attached template of
`exFuncRegistered` (id 1) gives `exFuncDisposed`; id 1 is no longer a key of
the registry. -/
theorem C5_witness_attached_template :
    FunctionTemplate.Dispose exFuncRegistered 0 = some exFuncDisposed
    ∧ ∃ s1 eng1, FunctionTemplate.Dispose exFuncRegistered 0 = some s1
        ∧ s1.engines[0]? = some eng1 ∧ eng1.funcTemplates.get 1 = none :=
  ⟨by decide,
   let ⟨s1, eng1, h1, _, _, _, _, h6, h7, _⟩ :=
     C5_dispose_removes_exactly_own_id.1 exFuncRegistered 0
       { id := 1, engine := some 0, callback := some 7 } 0
       { self := 0, funcTemplateId := 1, funcTemplates := [(1, 0)],
         objectTemplateId := 0, objectTemplates := [] }
       (by decide) (by decide) (by decide) (by decide)
   ⟨s1, eng1, h1, h6, h7⟩⟩

/-- C6 at a concrete input: on a fresh engine, after the calls
`SetAccessor("x", 1, 2, 0)`, `SetAccessor("y", nil, 3, 1)` and
`SetAccessor("x", 4, nil, 2)`, `NewObject` visiting "y" before "x" installs
"y" and then "x", the latter with the record of the third call (address 2,
attributes 2); and all the calls return. -/
theorem C6_witness_three_calls :
    ((Engine.NewObjectTemplate (State.init [0]) 0).bind (fun r =>
        (setAccessors r.2 r.1
          [{ key := "x", getter := some 1, setter := some 2, attribs := 0 },
           { key := "y", getter := none, setter := some 3, attribs := 1 },
           { key := "x", getter := some 4, setter := none, attribs := 2 }]).bind (fun s2 =>
          ObjectTemplate.NewObject s2 r.1 (some 5) (fun _ => 1) [("y", 1), ("x", 2)])))
      = some (some ⟨5⟩, [Event.V8_NewObject 0,
          Event.V8_Object_SetAccessor 5 "y" 1 (ClosurePtr.getter 1) (ClosurePtr.setter 1) 1,
          Event.V8_Object_SetAccessor 5 "x" 1 (ClosurePtr.getter 2) (ClosurePtr.setter 2) 2])
    ∧ (State.init [0]).engines[0]? = some (Engine.fresh 0)
    ∧ ∃ ot s1 s2 t, Engine.NewObjectTemplate (State.init [0]) 0 = some (ot, s1)
        ∧ setAccessors s1 ot
            [{ key := "x", getter := some 1, setter := some 2, attribs := 0 },
             { key := "y", getter := none, setter := some 3, attribs := 1 },
             { key := "x", getter := some 4, setter := none, attribs := 2 }] = some s2
        ∧ s2.ots[ot]? = some t :=
  ⟨by decide, by decide,
   let ⟨ot, s1, s2, t, h1, h2, h3, _⟩ :=
     C6_new_object_installs_last_write_per_name (State.init [0]) 0 (Engine.fresh 0)
       [{ key := "x", getter := some 1, setter := some 2, attribs := 0 },
        { key := "y", getter := none, setter := some 3, attribs := 1 },
        { key := "x", getter := some 4, setter := none, attribs := 2 }] (by decide)
   ⟨ot, s1, s2, t, h1, h2, h3⟩⟩

/-- C7 at a concrete heap: the template of `exObjWithAccessor` holds exactly
"x"; `NewObject` installs exactly "x" on object 5. -/
theorem C7_witness_single_accessor :
    ObjectTemplate.NewObject exObjWithAccessor 0 (some 5) (fun _ => 1) [("x", 0)]
      = some (some ⟨5⟩, [Event.V8_NewObject 0,
          Event.V8_Object_SetAccessor 5 "x" (toCInt "x".utf8ByteSize)
            (ClosurePtr.getter 0) (ClosurePtr.setter 0) (toCInt 0)]) :=
  (C7_objects_get_the_accessors_present_at_creation exObjWithAccessor 0 0
    { id := 1, engine := some 0, accessors := [("x", 0)] }
    { self := 0, funcTemplateId := 0, funcTemplates := [],
      objectTemplateId := 1, objectTemplates := [(1, 0)] }
    "x" "y" 0 { key := "x", getter := some 1, setter := some 2, attribs := 0 }
    (some 3) none 4
    (by decide) (by decide) (by decide) (by decide) (by decide) (by decide) (by decide)).1
    5 (fun _ => 1) [("x", 0)] (List.Perm.refl _)

/-- C8 at concrete heaps: after the object template of `exObjWithAccessor` has
been disposed, `go_getter_callback` with the address of the getter of its
accessor "x" calls that getter (closure 1); and for a disposed function
template whose callback is nil, `go_function_callback` panics, as it does
before Dispose. -/
theorem C8_witness_getter_and_nil_callback :
    ObjectTemplate.Dispose exObjWithAccessor 0 = some exObjDisposed
    ∧ go_getter_callback exObjDisposed "x" 4 (ClosurePtr.getter 0)
        = some [Event.callGetter 1 "x" { self := 4, returnValue := ⟨none⟩ }]
    ∧ FunctionTemplate.Dispose exNilCallback 0 = some exNilCallbackDisposed
    ∧ go_function_callback exNilCallback 3 (ClosurePtr.funcCallback 0) = none
    ∧ go_function_callback exNilCallbackDisposed 3 (ClosurePtr.funcCallback 0) = none :=
  ⟨by decide,
   (C8_bridge_ignores_disposal.2.1 exObjWithAccessor exObjDisposed 0
     { id := 1, engine := some 0, accessors := [("x", 0)] } "x" 0
     { key := "x", getter := some 1, setter := some 2, attribs := 0 } "x" 4
     (by decide) (by decide) (by decide) (by decide)).2,
   by decide, by decide,
   (C8_bridge_ignores_disposal.1 exNilCallback exNilCallbackDisposed 0
     { id := 1, engine := some 0, callback := none } 3 (by decide) (by decide)).2⟩

end V8
